import Mathlib

/-!
Verification development for the OMAP4 hardware composer (hwc) module:
a shallow embedding of the overlay-allocation and composition-planning
engine of `hwc/hwc.c` and `hwc/display.c`, together with theorems about
the engine's documented properties.

Machine integers of the C source are modelled as `Nat`/`Int`; the
arithmetic performed by the embedded code paths stays well inside
32-bit range for the values the hardware can produce, so no wrap-around
modelling is required (noted per definition where relevant).
-/

set_option maxRecDepth 4096

/-! ## Scaler capability test (`can_scale`, hwc.c lines 512-553) -/

/-- Hardware scaler limits (`struct dsscomp_platform_info` fields used by
`can_scale`). All fields are `uint32_t` in the source. -/
structure ScalerLimits where
  fclk : Nat
  min_width : Nat
  max_downscale : Nat
  max_xdecim_2d : Nat
  max_ydecim_2d : Nat
  max_xdecim_1d : Nat
  max_ydecim_1d : Nat
  integer_scale_ratio_limit : Nat
  deriving Repr, DecidableEq

/-- Macro `DIV_ROUND_UP(a, b) = (a + b - 1) / b` from the utility header. -/
def DIV_ROUND_UP (a b : Nat) : Nat := (a + b - 1) / b

/-- Embedding of `can_scale` (hwc.c lines 512-553). `digitChannel` is
`dis->channel == OMAP_DSS_CHANNEL_DIGIT`. Division is C unsigned (= `Nat`)
division throughout. -/
def can_scale (src_w src_h dst_w dst_h : Nat) (is_2d : Bool)
    (digitChannel : Bool) (limits : ScalerLimits) (pclk : Nat) : Bool :=
  let fclk := limits.fclk / 1000
  let min_src_w := DIV_ROUND_UP src_w
      (if is_2d then limits.max_xdecim_2d else limits.max_xdecim_1d)
  let min_src_h := DIV_ROUND_UP src_h
      (if is_2d then limits.max_ydecim_2d else limits.max_ydecim_1d)
  /- cannot render 1-width layers on DSI video mode panels -/
  if ¬digitChannel ∧ dst_w < limits.min_width then false
  /- limit vertical downscale well below theoretical limit -/
  else if dst_h < src_h / 4 then false
  /- max downscale -/
  else if dst_h * limits.max_downscale < min_src_h then false
  /- for manual panels pclk is 0, and there are no pclk based scaling limits -/
  else if pclk = 0 then
    ¬(dst_w < src_w / limits.max_downscale /
        (if is_2d then limits.max_xdecim_2d else limits.max_xdecim_1d))
  /- limit horizontal downscale well below theoretical limit -/
  else if dst_w * 4 < src_w then false
  else
    /- max horizontal downscale is 4, or the fclk/pixclk -/
    let fclk := if fclk > pclk * limits.max_downscale
                then pclk * limits.max_downscale else fclk
    /- for small parts, we need to use integer fclk/pixclk -/
    let fclk := if src_w < limits.integer_scale_ratio_limit
                then fclk / pclk * pclk else fclk
    if dst_w * fclk < min_src_w * pclk then false
    else true

/-- Predicate written from the words of the claim for `can_scale`: the test
fails exactly when the destination width is below the hardware minimum on
non-digital outputs, the destination height is below one quarter of the
source height, the decimation-adjusted source height exceeds the maximum
downscale at the destination height, or — only when a pixel clock is
known — when `dst_w*4 < src_w` or the clamped fetch clock cannot cover the
decimated source width. In all other situations it returns true. -/
def can_scale_claim (src_w src_h dst_w dst_h : Nat) (is_2d : Bool)
    (digitChannel : Bool) (limits : ScalerLimits) (pclk : Nat) : Bool :=
  let fclk := limits.fclk / 1000
  let min_src_w := DIV_ROUND_UP src_w
      (if is_2d then limits.max_xdecim_2d else limits.max_xdecim_1d)
  let min_src_h := DIV_ROUND_UP src_h
      (if is_2d then limits.max_ydecim_2d else limits.max_ydecim_1d)
  let fclkClamped := if fclk > pclk * limits.max_downscale
                     then pclk * limits.max_downscale else fclk
  let fclkClamped := if src_w < limits.integer_scale_ratio_limit
                     then fclkClamped / pclk * pclk else fclkClamped
  ¬((¬digitChannel ∧ dst_w < limits.min_width) ∨
    dst_h < src_h / 4 ∨
    dst_h * limits.max_downscale < min_src_h ∨
    (pclk ≠ 0 ∧ (dst_w * 4 < src_w ∨ dst_w * fclkClamped < min_src_w * pclk)))

/-- Amended predicate: identical to the claim's conditions except that when
the pixel clock is zero the test additionally fails if the destination
width is below the source width divided by the maximum downscale factor and
the horizontal decimation limit. -/
def can_scale_amended (src_w src_h dst_w dst_h : Nat) (is_2d : Bool)
    (digitChannel : Bool) (limits : ScalerLimits) (pclk : Nat) : Bool :=
  let fclk := limits.fclk / 1000
  let min_src_w := DIV_ROUND_UP src_w
      (if is_2d then limits.max_xdecim_2d else limits.max_xdecim_1d)
  let min_src_h := DIV_ROUND_UP src_h
      (if is_2d then limits.max_ydecim_2d else limits.max_ydecim_1d)
  let fclkClamped := if fclk > pclk * limits.max_downscale
                     then pclk * limits.max_downscale else fclk
  let fclkClamped := if src_w < limits.integer_scale_ratio_limit
                     then fclkClamped / pclk * pclk else fclkClamped
  ¬((¬digitChannel ∧ dst_w < limits.min_width) ∨
    dst_h < src_h / 4 ∨
    dst_h * limits.max_downscale < min_src_h ∨
    (pclk = 0 ∧ dst_w < src_w / limits.max_downscale /
        (if is_2d then limits.max_xdecim_2d else limits.max_xdecim_1d)) ∨
    (pclk ≠ 0 ∧ (dst_w * 4 < src_w ∨ dst_w * fclkClamped < min_src_w * pclk)))

/-- Limits used by the `can_scale` counterexample: trivial decimation,
maximum downscale factor 4. -/
def cx_limits : ScalerLimits :=
  { fclk := 186000000, min_width := 2, max_downscale := 4,
    max_xdecim_2d := 1, max_ydecim_2d := 1, max_xdecim_1d := 1,
    max_ydecim_1d := 1, integer_scale_ratio_limit := 400 }

/-- C8, counterexample: on a digital channel with no pixel clock (manual
panel), scaling a 100x100 source to 10x100 passes every condition the claim
lists, yet `can_scale` returns false (the code also checks the maximum
horizontal downscale in the zero-pixel-clock branch). -/
theorem can_scale_claim_counterexample :
    can_scale_claim 100 100 10 100 false true cx_limits 0 = true ∧
    can_scale 100 100 10 100 false true cx_limits 0 = false := by
  constructor <;> decide

set_option maxHeartbeats 1000000 in
/-- C8 (amended): `can_scale` returns false exactly when the destination
width is below the hardware minimum on non-digital outputs, the destination
height is below a quarter of the source height, the decimation-adjusted
source height exceeds the maximum downscale, the pixel clock is zero and the
destination width is below the horizontal-downscale-and-decimation limit,
or the pixel clock is nonzero and either `dst_w*4 < src_w` or the clamped
fetch clock cannot cover the decimated source width; otherwise true. -/
theorem can_scale_eq_amended (src_w src_h dst_w dst_h : Nat) (is_2d : Bool)
    (digitChannel : Bool) (limits : ScalerLimits) (pclk : Nat) :
    can_scale src_w src_h dst_w dst_h is_2d digitChannel limits pclk =
    can_scale_amended src_w src_h dst_w dst_h is_2d digitChannel limits pclk := by
  unfold can_scale can_scale_amended
  by_cases c1 : ¬digitChannel ∧ dst_w < limits.min_width
  · simp [c1]
  · by_cases c2 : dst_h < src_h / 4
    · simp [c1, c2]
    · by_cases c3 : dst_h * limits.max_downscale <
          DIV_ROUND_UP src_h (if is_2d then limits.max_ydecim_2d else limits.max_ydecim_1d)
      · simp [c1, c2, c3]
      · by_cases c4 : pclk = 0
        · simp [c1, c2, c3, c4, ← decide_not, Nat.not_lt]
        · by_cases c5 : dst_w * 4 < src_w
          · simp [c1, c2, c3, c4, c5]
          · simp [c1, c2, c3, c4, c5, ← decide_not, Nat.not_lt]

/-! ## External display lifecycle (`display.c` lines 262-280, 422-431) -/

/-- External display entity (`external_display_t`). `allocId` identifies the
heap allocation backing the struct, so that frees can be logged. -/
structure ExternalDisplay where
  allocId : Nat
  ion_fd : Int
  deriving Repr, DecidableEq

/-- Portion of `omap_hwc_device_t` involved in external display teardown.
`freedAllocs` is a ghost log of the display allocations released with
`free_display` so far. -/
structure OmapHwcDevice where
  externalDisplay : Option ExternalDisplay
  mirrorRotation : Bool
  fbmemTiler2d : Bool
  freedAllocs : List Nat
  deriving Repr, DecidableEq

/-- Embedding of `remove_external_display` (display.c lines 262-280): if the
external display slot is NULL the function returns immediately; otherwise it
releases the display's buffers, frees the display struct (logged in
`freedAllocs`) and clears the slot. -/
def remove_external_display (dev : OmapHwcDevice) : OmapHwcDevice :=
  match dev.externalDisplay with
  | none => dev
  | some d =>
      { dev with
        externalDisplay := none,
        freedAllocs := dev.freedAllocs ++ [d.allocId] }

/-- C9: detaching the external display is idempotent — on an
already-detached device `remove_external_display` is the identity, a second
call never changes the state produced by the first, and the display
allocation freed by the first call is logged exactly once (no double
free). -/
theorem remove_external_display_idempotent (dev : OmapHwcDevice) :
    remove_external_display (remove_external_display dev) =
      remove_external_display dev ∧
    (dev.externalDisplay = none → remove_external_display dev = dev) ∧
    (∀ d, dev.externalDisplay = some d →
      (remove_external_display (remove_external_display dev)).freedAllocs =
        dev.freedAllocs ++ [d.allocId]) := by
  rcases h : dev.externalDisplay with _ | d <;>
    simp [remove_external_display, h]

/-- Concrete device used to witness the idempotence theorem. -/
def c9_dev : OmapHwcDevice :=
  { externalDisplay := some { allocId := 7, ion_fd := 3 },
    mirrorRotation := true, fbmemTiler2d := false, freedAllocs := [] }

/-- Witness for C9 at a device with an attached external display: the freed
log after two detach calls holds the allocation exactly once, and the
detached device is a fixed point. -/
theorem remove_external_display_idempotent_witness :
    remove_external_display (remove_external_display c9_dev) =
      remove_external_display c9_dev ∧
    (remove_external_display (remove_external_display c9_dev)).freedAllocs = [7] :=
  ⟨(remove_external_display_idempotent c9_dev).1,
   (remove_external_display_idempotent c9_dev).2.2 { allocId := 7, ion_fd := 3 } rfl⟩

/-! ## Geometry: crop to visible region (`crop_overlay_to_rect`, hwc.c 397-469) -/

/-- Rectangle in HWC coordinates (`hwc_rect_t`). -/
structure HwcRect where
  left : Int
  top : Int
  right : Int
  bottom : Int
  deriving Repr, DecidableEq

/-- Position/size rectangle of a DSS overlay configuration (`crop`/`win`
members of `dss2_ovl_cfg`; the C code reads them into plain `int`s). -/
structure DssRect where
  x : Int
  y : Int
  w : Int
  h : Int
  deriving Repr, DecidableEq

/-- Fields of `dss2_ovl_cfg` used by the geometry pipeline. -/
structure OvlCfg where
  win : DssRect
  crop : DssRect
  rotation : Int
  mirror : Bool
  enabled : Bool
  ix : Nat
  mgr_ix : Nat
  zorder : Int
  deriving Repr, DecidableEq

/-- Two-element int array (`int xy[2]` / `int wh[2]` locals), indexed by a
`Bool` where `false` is index 0 and `true` is index 1. -/
structure Duo where
  v0 : Int
  v1 : Int
  deriving Repr, DecidableEq

/-- Read entry `i` (C `p[i]`). -/
def Duo.g (p : Duo) (i : Bool) : Int :=
  if i then p.v1 else p.v0

/-- Write entry `i` (C `p[i] = v`). -/
def Duo.s (p : Duo) (i : Bool) (v : Int) : Duo :=
  if i then { p with v1 := v } else { p with v0 := v }

/-- One C statement `xy[i] -= (wh[i] = -wh[i])`, which negates the extent at
index `i` and shifts the origin by the old extent. -/
def flipAxis (xy wh : Duo) (i : Bool) : Duo × Duo :=
  (xy.s i (xy.g i + wh.g i), wh.s i (-(wh.g i)))

/-- Rotation parity bit `rotation & 1` of a C `int`. -/
def rotSwap (rot : Int) : Bool := rot.emod 2 = 1

/-- Rotation half-turn bit `rotation & 2` of a C `int`. -/
def rotHalf (rot : Int) : Bool := 2 ≤ rot.emod 4

/-- Alignment of the crop window with display coordinates
(hwc.c lines 419-425). -/
def align_crop_to_display (rot : Int) (mirror : Bool) (cxy cwh : Duo) :
    Duo × Duo :=
  let swap := rotSwap rot
  let (cxy, cwh) := if swap then flipAxis cxy cwh true else (cxy, cwh)
  let (cxy, cwh) := if rotHalf rot then flipAxis cxy cwh (!swap) else (cxy, cwh)
  if mirror ≠ rotHalf rot then flipAxis cxy cwh swap else (cxy, cwh)

/-- Realignment of the crop window back to buffer coordinates
(hwc.c lines 455-461). -/
def realign_crop_to_buffer (rot : Int) (mirror : Bool) (cxy cwh : Duo) :
    Duo × Duo :=
  let swap := rotSwap rot
  let (cxy, cwh) := if rotHalf rot then flipAxis cxy cwh (!swap) else (cxy, cwh)
  let (cxy, cwh) := if mirror ≠ rotHalf rot then flipAxis cxy cwh swap else (cxy, cwh)
  if swap then flipAxis cxy cwh true else (cxy, cwh)

/-- Local state of the clipping loop: window origin/extent and (aligned)
crop origin/extent pairs. -/
structure ClipSt where
  wxy : Duo
  wwh : Duo
  cxy : Duo
  cwh : Duo
  deriving Repr, DecidableEq

/-- Scalar body of the per-axis clipping loop of `crop_overlay_to_rect`
(hwc.c lines 427-453): given the visible interval `[vlt, vrb)`, window
origin/extent `wxy0/wwh0` and (display-aligned) crop origin/extent
`cxy0/cwh0` on one axis, returns the clipped values, or `none` for the
`-ENOENT` early returns. Each C in-place mutation becomes a conditional
rebinding; division is C `int` division (truncation toward zero,
`Int.tdiv`). -/
def clip_axis_vals (vlt vrb wxy0 wwh0 cxy0 cwh0 : Int) :
    Option (Int × Int × Int × Int) :=
  /- see if complete buffer is outside the vis or it is fully cropped or
     scaled to 0 -/
  if wwh0 ≤ 0 ∨ vrb ≤ vlt ∨ wxy0 + wwh0 ≤ vlt ∨ wxy0 ≥ vrb ∨ cwh0 = 0 then
    none
  else
    /- crop left/top: correction term `a` -/
    let a := Int.tdiv ((vlt - wxy0) * cwh0) wwh0
    let wxy1 := if wxy0 < vlt then vlt else wxy0
    let wwh1 := if wxy0 < vlt then wwh0 - (vlt - wxy0) else wwh0
    let cxy1 := if wxy0 < vlt then cxy0 + a else cxy0
    let cwh1 := if wxy0 < vlt then cwh0 - a else cwh0
    /- crop right/bottom -/
    let cwh2 := if wxy1 + wwh1 > vrb then Int.tdiv (cwh1 * (vrb - wxy1)) wwh1
                else cwh1
    let wwh2 := if wxy1 + wwh1 > vrb then vrb - wxy1 else wwh1
    if cwh2 = 0 ∨ wwh2 = 0 then none else some (wxy1, wwh2, cxy1, cwh2)

/-- Iteration of the clipping loop for axis `c` on the full state: the
window coordinates live at index `c`, the crop coordinates at the
rotation-realigned index `c ^ swap`. -/
def crop_to_rect_axis (swap : Bool) (vlt vrb : Duo) (st : ClipSt) (c : Bool) :
    Option ClipSt :=
  match clip_axis_vals (vlt.g c) (vrb.g c) (st.wxy.g c) (st.wwh.g c)
      (st.cxy.g (Bool.xor c swap)) (st.cwh.g (Bool.xor c swap)) with
  | none => none
  | some (wxy, wwh, cxy, cwh) =>
    some ⟨st.wxy.s c wxy, st.wwh.s c wwh,
          st.cxy.s (Bool.xor c swap) cxy, st.cwh.s (Bool.xor c swap) cwh⟩

/-- Embedding of `crop_overlay_to_rect` (hwc.c lines 397-469). Results are
computed in locals and written back to the configuration only on success;
every failure path returns `-ENOENT` (= `-2`) with the configuration left
exactly as on entry. -/
def crop_overlay_to_rect (vis : HwcRect) (oc : OvlCfg) : Int × OvlCfg :=
  let swap := rotSwap oc.rotation
  let ac := align_crop_to_display oc.rotation oc.mirror
      ⟨oc.crop.x, oc.crop.y⟩ ⟨oc.crop.w, oc.crop.h⟩
  let st0 : ClipSt := ⟨⟨oc.win.x, oc.win.y⟩, ⟨oc.win.w, oc.win.h⟩, ac.1, ac.2⟩
  let vlt : Duo := ⟨vis.left, vis.top⟩
  let vrb : Duo := ⟨vis.right, vis.bottom⟩
  match crop_to_rect_axis swap vlt vrb st0 false with
  | none => (-2, oc)
  | some st1 =>
    match crop_to_rect_axis swap vlt vrb st1 true with
    | none => (-2, oc)
    | some st2 =>
      let rc := realign_crop_to_buffer oc.rotation oc.mirror st2.cxy st2.cwh
      (0, { oc with
            win := ⟨st2.wxy.g false, st2.wxy.g true,
                    st2.wwh.g false, st2.wwh.g true⟩,
            crop := ⟨rc.1.g false, rc.1.g true,
                     rc.2.g false, rc.2.g true⟩ })

/-! ### Lemmas about the clipping primitives -/

/-- Reading back the entry just written (C `p[i] = v` then `p[i]`). -/
theorem Duo.g_s_self (p : Duo) (i : Bool) (v : Int) : (p.s i v).g i = v := by
  cases i <;> simp [Duo.g, Duo.s]

/-- Writing one entry leaves the other entry unchanged. -/
theorem Duo.g_s_other (p : Duo) (i j : Bool) (v : Int) (h : i ≠ j) :
    (p.s i v).g j = p.g j := by
  cases i <;> cases j <;> simp_all [Duo.g, Duo.s]

/-- When the window lies entirely outside the visible interval on this axis,
the scalar clip body takes the `-ENOENT` early return. -/
theorem clip_axis_vals_outside (vlt vrb wxy0 wwh0 cxy0 cwh0 : Int)
    (h : wxy0 + wwh0 ≤ vlt ∨ wxy0 ≥ vrb) :
    clip_axis_vals vlt vrb wxy0 wwh0 cxy0 cwh0 = none := by
  unfold clip_axis_vals
  rw [if_pos]
  tauto

/-- A successful scalar clip always produces a strictly positive window
extent on its axis. -/
theorem clip_axis_vals_pos (vlt vrb wxy0 wwh0 cxy0 cwh0 : Int)
    (r : Int × Int × Int × Int)
    (h : clip_axis_vals vlt vrb wxy0 wwh0 cxy0 cwh0 = some r) :
    0 < r.2.1 := by
  unfold clip_axis_vals at h
  split at h
  · exact absurd h (by simp)
  · rename_i h1
    push_neg at h1
    obtain ⟨hw, hv, ho, hi, hc⟩ := h1
    by_cases hl : wxy0 < vlt
    · simp only [if_pos hl] at h
      by_cases hr : vlt + (wwh0 - (vlt - wxy0)) > vrb
      · rw [if_pos hr, if_pos hr] at h
        split at h
        · exact absurd h (by simp)
        · simp only [Option.some.injEq] at h
          subst h
          simp only
          omega
      · rw [if_neg hr, if_neg hr] at h
        split at h
        · exact absurd h (by simp)
        · rename_i h2
          push_neg at h2
          simp only [Option.some.injEq] at h
          subst h
          simp only
          omega
    · simp only [if_neg hl] at h
      by_cases hr : wxy0 + wwh0 > vrb
      · rw [if_pos hr, if_pos hr] at h
        split at h
        · exact absurd h (by simp)
        · simp only [Option.some.injEq] at h
          subst h
          simp only
          omega
      · rw [if_neg hr, if_neg hr] at h
        split at h
        · exact absurd h (by simp)
        · simp only [Option.some.injEq] at h
          subst h
          simp only
          omega

/-- Axis-level version of `clip_axis_vals_outside`. -/
theorem crop_to_rect_axis_outside (swap : Bool) (vlt vrb : Duo) (st : ClipSt)
    (c : Bool)
    (h : st.wxy.g c + st.wwh.g c ≤ vlt.g c ∨ st.wxy.g c ≥ vrb.g c) :
    crop_to_rect_axis swap vlt vrb st c = none := by
  unfold crop_to_rect_axis
  rw [clip_axis_vals_outside _ _ _ _ _ _ h]

/-- Clipping one axis leaves the window coordinates of the other axis
unchanged. -/
theorem crop_to_rect_axis_other (swap : Bool) (vlt vrb : Duo) (st : ClipSt)
    (c : Bool) (st' : ClipSt)
    (h : crop_to_rect_axis swap vlt vrb st c = some st') :
    st'.wxy.g (!c) = st.wxy.g (!c) ∧ st'.wwh.g (!c) = st.wwh.g (!c) := by
  unfold crop_to_rect_axis at h
  split at h
  · exact absurd h (by simp)
  · simp only [Option.some.injEq] at h
    subst h
    constructor <;> exact Duo.g_s_other _ c (!c) _ (by simp)

/-- A successful axis clip leaves a strictly positive window extent. -/
theorem crop_to_rect_axis_wwh_pos (swap : Bool) (vlt vrb : Duo) (st : ClipSt)
    (c : Bool) (st' : ClipSt)
    (h : crop_to_rect_axis swap vlt vrb st c = some st') :
    0 < st'.wwh.g c := by
  unfold crop_to_rect_axis at h
  split at h
  · exact absurd h (by simp)
  · rename_i wxy wwh cxy cwh heq
    simp only [Option.some.injEq] at h
    subst h
    have := clip_axis_vals_pos _ _ _ _ _ _ _ heq
    simpa [Duo.g_s_self] using this

/-- Exhaustive description of `crop_overlay_to_rect`: either some axis
fails and the result is `-ENOENT` with the configuration untouched, or both
axis clips succeed and the clipped window/crop are written back. -/
theorem crop_overlay_to_rect_cases (vis : HwcRect) (oc : OvlCfg) :
    crop_overlay_to_rect vis oc = (-2, oc) ∨
    ∃ st1 st2,
      crop_to_rect_axis (rotSwap oc.rotation) ⟨vis.left, vis.top⟩
        ⟨vis.right, vis.bottom⟩
        ⟨⟨oc.win.x, oc.win.y⟩, ⟨oc.win.w, oc.win.h⟩,
         (align_crop_to_display oc.rotation oc.mirror
           ⟨oc.crop.x, oc.crop.y⟩ ⟨oc.crop.w, oc.crop.h⟩).1,
         (align_crop_to_display oc.rotation oc.mirror
           ⟨oc.crop.x, oc.crop.y⟩ ⟨oc.crop.w, oc.crop.h⟩).2⟩ false = some st1 ∧
      crop_to_rect_axis (rotSwap oc.rotation) ⟨vis.left, vis.top⟩
        ⟨vis.right, vis.bottom⟩ st1 true = some st2 ∧
      crop_overlay_to_rect vis oc =
        (0, { oc with
              win := ⟨st2.wxy.g false, st2.wxy.g true,
                      st2.wwh.g false, st2.wwh.g true⟩,
              crop := ⟨(realign_crop_to_buffer oc.rotation oc.mirror
                          st2.cxy st2.cwh).1.g false,
                       (realign_crop_to_buffer oc.rotation oc.mirror
                          st2.cxy st2.cwh).1.g true,
                       (realign_crop_to_buffer oc.rotation oc.mirror
                          st2.cxy st2.cwh).2.g false,
                       (realign_crop_to_buffer oc.rotation oc.mirror
                          st2.cxy st2.cwh).2.g true⟩ }) := by
  unfold crop_overlay_to_rect
  dsimp only
  split
  · exact Or.inl rfl
  · rename_i st1 h0
    split
    · exact Or.inl rfl
    · rename_i st2 h1
      exact Or.inr ⟨st1, st2, h0, h1, rfl⟩

/-- C6: `crop_overlay_to_rect` reports the distinct fully-clipped failure
`-ENOENT` (and leaves the configuration untouched) for every crop/window
pair whose window lies entirely outside the visible region on some axis;
its only results are success (`0`) or `-ENOENT`; and a success never
carries an empty window rectangle — both clipped window extents are
strictly positive. -/
theorem crop_overlay_to_rect_fully_clipped (vis : HwcRect) (oc : OvlCfg) :
    ((oc.win.x + oc.win.w ≤ vis.left ∨ vis.right ≤ oc.win.x ∨
      oc.win.y + oc.win.h ≤ vis.top ∨ vis.bottom ≤ oc.win.y) →
      crop_overlay_to_rect vis oc = (-2, oc)) ∧
    ((crop_overlay_to_rect vis oc).1 = 0 ∨
      (crop_overlay_to_rect vis oc).1 = -2) ∧
    (∀ oc2, crop_overlay_to_rect vis oc = (0, oc2) →
      0 < oc2.win.w ∧ 0 < oc2.win.h) := by
  rcases crop_overlay_to_rect_cases vis oc with hc | ⟨st1, st2, h0, h1, hc⟩
  · refine ⟨fun _ => hc, Or.inr (by rw [hc]), fun oc2 hh => ?_⟩
    rw [hc] at hh
    simp at hh
  · refine ⟨fun hout => ?_, Or.inl (by rw [hc]), fun oc2 hh => ?_⟩
    · exfalso
      rcases hout with h | h | h | h
      · rw [crop_to_rect_axis_outside _ _ _ _ false
            (Or.inl (by simp [Duo.g]; omega))] at h0
        exact Option.noConfusion h0
      · rw [crop_to_rect_axis_outside _ _ _ _ false
            (Or.inr (by simp [Duo.g]; omega))] at h0
        exact Option.noConfusion h0
      · obtain ⟨hx, hw⟩ := crop_to_rect_axis_other _ _ _ _ false _ h0
        rw [crop_to_rect_axis_outside _ _ _ st1 true
          (Or.inl (by simp only [Bool.not_false] at hx hw
                      rw [hx, hw]; simp [Duo.g]; omega))] at h1
        exact Option.noConfusion h1
      · obtain ⟨hx, hw⟩ := crop_to_rect_axis_other _ _ _ _ false _ h0
        rw [crop_to_rect_axis_outside _ _ _ st1 true
          (Or.inr (by simp only [Bool.not_false] at hx hw
                      rw [hx]; simp [Duo.g]; omega))] at h1
        exact Option.noConfusion h1
    · rw [hc] at hh
      simp only [Prod.mk.injEq, true_and] at hh
      subst hh
      have p1 := crop_to_rect_axis_wwh_pos _ _ _ _ _ _ h1
      have p0 := crop_to_rect_axis_wwh_pos _ _ _ _ _ _ h0
      obtain ⟨-, hw⟩ := crop_to_rect_axis_other _ _ _ _ _ _ h1
      simp only [Bool.not_true] at hw
      constructor
      · simpa [hw] using p0
      · exact p1

/-- Fully-outside overlay used to witness the fully-clipped theorem. -/
def c6_vis : HwcRect := ⟨0, 0, 100, 100⟩

/-- Overlay whose window starts at x = 200, beyond the 100-wide visible
region. -/
def c6_ovl : OvlCfg :=
  { win := ⟨200, 5, 10, 10⟩, crop := ⟨0, 0, 10, 10⟩, rotation := 0,
    mirror := false, enabled := true, ix := 0, mgr_ix := 0, zorder := 0 }

/-- Witness for C6: the concrete fully-outside overlay is reported as
fully clipped with the configuration unchanged. -/
theorem crop_overlay_to_rect_fully_clipped_witness :
    crop_overlay_to_rect c6_vis c6_ovl = (-2, c6_ovl) :=
  (crop_overlay_to_rect_fully_clipped c6_vis c6_ovl).1 (by decide)

/-! ## Display transform application (`adjust_overlay_to_display`, hwc.c 490-510) -/

/-- Display transform state (`display_transform_t`): mirror/clone region,
rotation quarter-turns, horizontal flip and scaling flag. The 3x3 float
matrix itself is abstracted by the `tf` parameter of
`adjust_overlay_to_display` below. -/
structure DisplayTransform where
  region : HwcRect
  rotation : Int
  hflip : Bool
  scaling : Bool
  deriving Repr, DecidableEq

/-- Embedding of `adjust_overlay_to_display` (hwc.c lines 490-510): crop to
the clone region; on a fully-clipped failure only the enabled flag is
cleared; otherwise the window is mapped through the display matrix
(`transform_overlay`, abstracted as `tf` because it is float-matrix
arithmetic) and the rotation/mirror are composed with the display's
(`rotation += (mirror ? -1 : 1) * display_rotation; rotation &= 3` and
`mirror ^= hflip`). -/
def adjust_overlay_to_display (tf : DssRect → DssRect) (tr : DisplayTransform)
    (ovl : OvlCfg) : OvlCfg :=
  let r := crop_overlay_to_rect tr.region ovl
  if r.1 ≠ 0 then { r.2 with enabled := false }
  else
    let oc := { r.2 with win := tf r.2.win }
    let oc := { oc with rotation :=
      (oc.rotation + (if oc.mirror then -1 else 1) * tr.rotation).emod 4 }
    if tr.hflip then { oc with mirror := !oc.mirror } else oc

/-- C10: when `crop_overlay_to_rect` reports fully-clipped, the overlay
crop/window configuration is exactly as on entry (results are written back
only on success), and `adjust_overlay_to_display` then changes nothing but
the enabled flag, which it clears. -/
theorem crop_failure_leaves_overlay_unchanged (tf : DssRect → DssRect)
    (tr : DisplayTransform) (ovl : OvlCfg)
    (h : (crop_overlay_to_rect tr.region ovl).1 ≠ 0) :
    (crop_overlay_to_rect tr.region ovl).2 = ovl ∧
    adjust_overlay_to_display tf tr ovl = { ovl with enabled := false } := by
  rcases crop_overlay_to_rect_cases tr.region ovl with hc | ⟨st1, st2, h0, h1, hc⟩
  · refine ⟨by rw [hc], ?_⟩
    unfold adjust_overlay_to_display
    rw [hc]
    simp
  · rw [hc] at h
    simp at h

/-- Transform whose clone region excludes the witness overlay. -/
def c10_tr : DisplayTransform :=
  { region := ⟨0, 0, 50, 50⟩, rotation := 1, hflip := true, scaling := true }

/-- Overlay entirely to the left of the clone region. -/
def c10_ovl : OvlCfg :=
  { win := ⟨-30, 5, 10, 10⟩, crop := ⟨0, 0, 20, 20⟩, rotation := 0,
    mirror := false, enabled := true, ix := 1, mgr_ix := 0, zorder := 2 }

/-- Witness for C10 at a concrete overlay outside the clone region. -/
theorem crop_failure_leaves_overlay_unchanged_witness :
    (crop_overlay_to_rect c10_tr.region c10_ovl).2 = c10_ovl ∧
    adjust_overlay_to_display id c10_tr c10_ovl =
      { c10_ovl with enabled := false } :=
  crop_failure_leaves_overlay_unchanged id c10_tr c10_ovl (by decide)

/-! ## Overlay allocator (`reserve_overlays_for_displays`, hwc.c 710-778) -/

def MAX_HW_OVERLAYS : Nat := 4

def NUM_NONSCALING_OVERLAYS : Nat := 1

def OMAP_DSS_GFX : Nat := 0

def OMAP_DSS_VIDEO1 : Nat := 1

/-- Inputs of the allocator. -/
structure ReserveInput where
  primaryScaling : Bool
  last_ext_ovls : Nat
  last_int_ovls : Nat
  protectedCount : Nat
  extPresent : Bool
  extMirroring : Bool
  deriving Repr, DecidableEq

/-- Per-display budget (`composition_t` fields set by the allocator). -/
structure CompBudget where
  ovl_ix_base : Nat
  wanted_ovls : Nat
  avail_ovls : Nat
  scaling_ovls : Nat
  used_ovls : Nat
  deriving Repr, DecidableEq

/-- Overlay pool after the scaling-primary adjustment. -/
def hwc_max_overlays (primaryScaling : Bool) : Nat :=
  if primaryScaling then MAX_HW_OVERLAYS - NUM_NONSCALING_OVERLAYS
  else MAX_HW_OVERLAYS

/-- Primary minimum reservation: one overlay for the framebuffer plus one
per protected layer, capped at the pool size. -/
def min_primary_overlays (protectedCount max_overlays : Nat) : Nat :=
  min (1 + protectedCount) max_overlays

/-- Allocator result: primary budget plus external budget when an external
display is attached. -/
structure ReserveResult where
  primary : CompBudget
  ext : Option CompBudget
  deriving Repr, DecidableEq

/-- Embedding of `reserve_overlays_for_displays` (hwc.c lines 710-778).
Subtractions are `uint32_t` in C; they are modelled with truncated `Nat`
subtraction, and all theorems below are stated in the regime where the
carried-over counters do not exceed the pool. -/
def reserve_overlays_for_displays (inp : ReserveInput) : ReserveResult :=
  let ovl_ix_base := if inp.primaryScaling then OMAP_DSS_VIDEO1 else OMAP_DSS_GFX
  let max_overlays := hwc_max_overlays inp.primaryScaling
  let num_nonscaling := if inp.primaryScaling then 0 else NUM_NONSCALING_OVERLAYS
  /- we cannot atomically switch overlays from one display to another -/
  let max_primary_overlays := max_overlays - inp.last_ext_ovls
  let max_external_overlays := max_overlays - inp.last_int_ovls
  let primary : CompBudget :=
    { ovl_ix_base := ovl_ix_base, wanted_ovls := max_overlays,
      avail_ovls := max_primary_overlays,
      scaling_ovls := max_primary_overlays - num_nonscaling, used_ovls := 0 }
  if ¬inp.extPresent then { primary := primary, ext := none }
  else
    let minPrimary := min_primary_overlays inp.protectedCount max_overlays
    /- share available overlays between primary and external displays -/
    let pWanted := max (max_overlays / 2) minPrimary
    let pAvail := min max_primary_overlays pWanted
    let eWanted := max_overlays - pWanted
    let eAvail := min max_external_overlays eWanted
    let ext : CompBudget :=
      { ovl_ix_base := MAX_HW_OVERLAYS - eAvail, wanted_ovls := eWanted,
        avail_ovls := eAvail, scaling_ovls := eAvail, used_ovls := 0 }
    /- if mirroring, primary is limited by the external availability, but
       never below its minimum reservation -/
    let pAvail := if inp.extMirroring ∧ eAvail ≠ 0 ∧ eAvail < pAvail
                  then max minPrimary eAvail else pAvail
    { primary := { primary with wanted_ovls := pWanted, avail_ovls := pAvail },
      ext := some ext }

/-- Scenario input of C4: platform pool of 4, no external display, two
protected layers this frame, no overlays used by the other display last
frame. -/
def c4_input : ReserveInput :=
  { primaryScaling := false, last_ext_ovls := 0, last_int_ovls := 0,
    protectedCount := 2, extPresent := false, extMirroring := false }

/-- C4: with a 4-overlay platform, no external display and 2 protected
layers, the minimum primary reservation evaluates to `min(1+2,4) = 3` and
the primary display is given all 4 overlays; in general (no wrap-around of
the carried-over counters) the transition-limited available count of each
display is the pool size minus what the other display used last frame: for
the primary display without an external sink that is exactly its available
count, and with an external sink each side's available count is that
transition-limited value clamped to its wanted share. -/
theorem reserve_overlays_for_displays_scenario :
    min_primary_overlays 2 MAX_HW_OVERLAYS = 3 ∧
    (reserve_overlays_for_displays c4_input).primary.avail_ovls = 4 ∧
    (∀ inp : ReserveInput, inp.extPresent = false →
      (reserve_overlays_for_displays inp).primary.avail_ovls =
        hwc_max_overlays inp.primaryScaling - inp.last_ext_ovls) ∧
    (∀ inp : ReserveInput, inp.extPresent = true → inp.extMirroring = false →
      (reserve_overlays_for_displays inp).primary.avail_ovls =
        min (hwc_max_overlays inp.primaryScaling - inp.last_ext_ovls)
          (reserve_overlays_for_displays inp).primary.wanted_ovls) ∧
    (∀ inp : ReserveInput, inp.extPresent = true →
      ∃ extBudget, (reserve_overlays_for_displays inp).ext = some extBudget ∧
        extBudget.avail_ovls =
          min (hwc_max_overlays inp.primaryScaling - inp.last_int_ovls)
            extBudget.wanted_ovls) := by
  refine ⟨by decide, by decide, fun inp h => ?_, fun inp h hm => ?_, fun inp h => ?_⟩
  · simp [reserve_overlays_for_displays, h]
  · simp [reserve_overlays_for_displays, h, hm]
  · simp [reserve_overlays_for_displays, h]

/-- Witness for C4's general clauses at concrete inputs: an attached
external sink with one overlay used by each display last frame. -/
theorem reserve_overlays_for_displays_scenario_witness :
    (reserve_overlays_for_displays c4_input).primary.avail_ovls = 4 ∧
    (reserve_overlays_for_displays
      { primaryScaling := false, last_ext_ovls := 1, last_int_ovls := 1,
        protectedCount := 0, extPresent := true, extMirroring := false
        }).primary.avail_ovls =
      min (4 - 1) (reserve_overlays_for_displays
      { primaryScaling := false, last_ext_ovls := 1, last_int_ovls := 1,
        protectedCount := 0, extPresent := true, extMirroring := false
        }).primary.wanted_ovls := by
  constructor
  · exact (reserve_overlays_for_displays_scenario).2.1
  · exact (reserve_overlays_for_displays_scenario).2.2.2.1
      { primaryScaling := false, last_ext_ovls := 1, last_int_ovls := 1,
        protectedCount := 0, extPresent := true, extMirroring := false } rfl rfl

/-! ## Mirroring / cloning (`clone_overlay`, hwc.c 838-878 and 998-1023) -/

/-- One entry of the `dsscomp` overlay array (`dss2_ovl_info`): overlay
configuration plus buffer addressing. -/
structure DssOvl where
  cfg : OvlCfg
  addressingIon : Bool
  ba : Nat
  deriving Repr, DecidableEq

instance : Inhabited DssRect := ⟨⟨0, 0, 0, 0⟩⟩

instance : Inhabited OvlCfg :=
  ⟨⟨default, default, 0, false, false, 0, 0, 0⟩⟩

instance : Inhabited DssOvl := ⟨⟨default, false, 0⟩⟩

/-- Environment of a clone operation: external display transform (with the
float matrix abstracted as `tf`), external manager index, optional ion
framebuffer handle, and whether the primary composition uses the GPU. -/
structure CloneEnv where
  tf : DssRect → DssRect
  tr : DisplayTransform
  extMgrIx : Nat
  ionHandle : Option Nat
  useSgx : Bool

/-- Embedding of `clone_overlay` (hwc.c lines 838-878): duplicate source
overlay `ix` of the shared plan onto the external display, reassigning it
to an index reserved at the tail of the overlay index space, retargeting
the external manager, offsetting the z-order by the source display's
overlay count and running `adjust_overlay_to_display`; fails with `-EBUSY`
(= `-16`) exactly when all `MAX_HW_OVERLAYS` overlays are in use. -/
def clone_overlay (env : CloneEnv) (usedOvls : Nat) (ovls : List DssOvl)
    (ix : Nat) : Except Int (List DssOvl) :=
  let ext_ovl_ix := ovls.length - usedOvls
  if MAX_HW_OVERLAYS ≤ ovls.length then .error (-16)
  else
    let o := (ovls[ix]?).getD default
    /- reserve overlays at end for other display -/
    let o := { o with cfg := { o.cfg with
      ix := MAX_HW_OVERLAYS - 1 - ext_ovl_ix, mgr_ix := env.extMgrIx } }
    let o := if ix = 0 ∧ env.ionHandle.isSome ∧ env.useSgx then
        { o with addressingIon := true, ba := env.ionHandle.getD 0 }
      else
        { o with addressingIon := false, ba := ix }
    /- use distinct z values -/
    let o := { o with cfg := { o.cfg with
      zorder := o.cfg.zorder + usedOvls } }
    let o := { o with cfg := adjust_overlay_to_display env.tf env.tr o.cfg }
    .ok (ovls ++ [o])

/-- The `for (ix …) if (clone_overlay(…)) break;` loop of the legacy
mirroring branch of `hwc_prepare_for_display` (hwc.c lines 1005-1008). -/
def clone_loop (env : CloneEnv) (usedOvls : Nat) (ix : Nat)
    (ovls : List DssOvl) : List DssOvl :=
  if ix < usedOvls then
    match clone_overlay env usedOvls ovls ix with
    | .error _ => ovls
    | .ok ovls2 => clone_loop env usedOvls (ix + 1) ovls2
  else ovls
termination_by usedOvls - ix

/-- Legacy-mirroring branch of `hwc_prepare_for_display` (hwc.c lines
998-1023): clone the primary plan's overlays and return 0 — a clone
failure truncates cloning but never fails the frame. -/
def hwc_prepare_legacy (env : CloneEnv) (usedOvls : Nat)
    (ovls : List DssOvl) : Int × List DssOvl :=
  (0, clone_loop env usedOvls 0 ovls)

/-- Length/prefix specification of the clone loop: the already-present
overlays stay untouched, and the clone count is limited by both the number
of source overlays left and the hardware ceiling. -/
theorem clone_loop_spec (env : CloneEnv) (usedOvls : Nat) :
    ∀ ix ovls, ∃ tail, clone_loop env usedOvls ix ovls = ovls ++ tail ∧
      (ovls ++ tail).length =
        min (ovls.length + (usedOvls - ix)) (max ovls.length MAX_HW_OVERLAYS) := by
  intro ix
  induction' hn : usedOvls - ix using Nat.strong_induction_on with n IH generalizing ix
  intro ovls
  rw [clone_loop]
  by_cases hix : ix < usedOvls
  · rw [if_pos hix]
    by_cases hlen : MAX_HW_OVERLAYS ≤ ovls.length
    · rw [show clone_overlay env usedOvls ovls ix = .error (-16) by
        unfold clone_overlay; rw [if_pos hlen]]
      refine ⟨[], by simp, ?_⟩
      simp [MAX_HW_OVERLAYS] at hlen ⊢
      omega
    · have hstep : ∃ o, clone_overlay env usedOvls ovls ix = .ok (ovls ++ [o]) := by
        unfold clone_overlay
        rw [if_neg hlen]
        exact ⟨_, rfl⟩
      obtain ⟨o, ho⟩ := hstep
      rw [ho]
      dsimp only
      obtain ⟨tail, ht, hl⟩ := IH (usedOvls - (ix + 1)) (by omega) (ix + 1) rfl (ovls ++ [o])
      refine ⟨[o] ++ tail, ?_, ?_⟩
      · rw [ht, List.append_assoc]
      · rw [← List.append_assoc, ht] at *
        simp only [List.length_append, List.length_singleton] at hl ⊢
        simp [MAX_HW_OVERLAYS] at *
        omega
  · rw [if_neg hix]
    refine ⟨[], by simp, ?_⟩
    simp
    omega

/-- C5 theorem: per-overlay clone attempts succeed exactly while the total
overlay count is below `MAX_HW_OVERLAYS`. -/
theorem clone_overlay_hardware_busy (env : CloneEnv) (usedOvls : Nat)
    (ovls : List DssOvl) :
    (∀ ix, MAX_HW_OVERLAYS ≤ ovls.length →
      clone_overlay env usedOvls ovls ix = .error (-16)) ∧
    (∀ ix, ovls.length < MAX_HW_OVERLAYS →
      ∃ o, clone_overlay env usedOvls ovls ix = .ok (ovls ++ [o])) ∧
    (hwc_prepare_legacy env usedOvls ovls).1 = 0 ∧
    (∃ tail, (hwc_prepare_legacy env usedOvls ovls).2 = ovls ++ tail ∧
      (ovls ++ tail).length =
        min (ovls.length + usedOvls) (max ovls.length MAX_HW_OVERLAYS)) := by
  refine ⟨fun ix h => ?_, fun ix h => ?_, rfl, ?_⟩
  · unfold clone_overlay
    rw [if_pos h]
  · unfold clone_overlay
    rw [if_neg (by omega)]
    exact ⟨_, rfl⟩
  · simpa using clone_loop_spec env usedOvls 0 ovls

def c5_env : CloneEnv :=
  { tf := id, tr := ⟨⟨0, 0, 1280, 720⟩, 0, false, false⟩,
    extMgrIx := 1, ionHandle := none, useSgx := false }

def c5_ovl : DssOvl :=
  { cfg := { win := ⟨0, 0, 320, 240⟩, crop := ⟨0, 0, 320, 240⟩,
             rotation := 0, mirror := false, enabled := true,
             ix := 0, mgr_ix := 0, zorder := 0 },
    addressingIon := false, ba := 0 }

def c5_ovls3 : List DssOvl := List.replicate 3 c5_ovl

def c5_ovls4 : List DssOvl := List.replicate 4 c5_ovl

theorem clone_overlay_hardware_busy_witness :
    (hwc_prepare_legacy c5_env 3 c5_ovls3).1 = 0 ∧
    (hwc_prepare_legacy c5_env 3 c5_ovls3).2.length = 4 ∧
    clone_overlay c5_env 3 c5_ovls4 1 = .error (-16) := by
  refine ⟨(clone_overlay_hardware_busy c5_env 3 c5_ovls3).2.2.1, ?_,
          (clone_overlay_hardware_busy c5_env 3 c5_ovls4).1 1 (by decide)⟩
  obtain ⟨tail, ht, hl⟩ := (clone_overlay_hardware_busy c5_env 3 c5_ovls3).2.2.2
  rw [ht, hl]
  decide

/-! ## Mode selector (`get_max_dimensions`, `add_scaling_score`,
`set_best_hdmi_mode`; hwc.c 316-341, 555-591, 593-708) -/

/-- Embedding of `get_max_dimensions` (hwc.c lines 316-341): largest
same-aspect-ratio rectangle of `orig_xres x orig_yres` (with pixel ratio
`xpy = xpy_n / xpy_d`) fitting a screen of `scr_xres x scr_yres` whose
physical size is `scr_width x scr_height` (0 meaning unknown, assume 1:1).
The C float arithmetic is modelled as exact rational arithmetic with
cross-multiplied comparisons and the 2% aspect tolerance taken exactly
(`1 - 0.02 = 49/50`); `(uint32_t)(v + 0.5)` becomes `⌊v + 1/2⌋` written as
`(2a + b) / (2b)` over `Nat`. -/
def get_max_dimensions (orig_xres orig_yres xpy_n xpy_d
    scr_xres scr_yres scr_width scr_height : Nat) : Nat × Nat :=
  /- assume 1:1 pixel ratios if none supplied -/
  let defaulted := scr_width = 0 ∨ scr_height = 0
  let scr_width := if defaulted then scr_xres else scr_width
  let scr_height := if defaulted then scr_yres else scr_height
  /- x_factor = orig_xres * xpy * scr_height (numerator over xpy_d),
     y_factor = orig_yres * scr_width -/
  let xf := orig_xres * xpy_n * scr_height
  let yf := orig_yres * scr_width
  /- trim to keep aspect ratio, with tolerance -/
  if 50 * xf < 49 * (yf * xpy_d) then
    ((2 * (xf * scr_xres) + xpy_d * yf) / (2 * (xpy_d * yf)), scr_yres)
  else if 49 * xf > 50 * (yf * xpy_d) then
    (scr_xres, (2 * (yf * xpy_d * scr_yres) + xf) / (2 * xf))
  else (scr_xres, scr_yres)

/-- Embedding of `add_scaling_score` (hwc.c lines 555-591). The C shifts
`(s << k) | v` append sub-scores whose ranges fit in `k` bits, so they are
written `s * 2^k + v`; all values stay far below `2^32`. -/
def add_scaling_score (score0 xres yres refresh ext_xres ext_yres
    mode_xres mode_yres mode_refresh0 : Nat) : Nat :=
  let area := xres * yres
  let ext_area := ext_xres * ext_yres
  let mode_area := mode_xres * mode_yres
  /- prefer to upscale (1% tolerance), inserted after the 1st bit:
     score = ((score & ~1) | upscale) << 1 | (score & 1) -/
  let upscale : Nat :=
    if ext_xres ≥ xres * 99 / 100 ∧ ext_yres ≥ yres * 99 / 100 then 1 else 0
  let score := (2 * (score0 / 2) + upscale) * 2 + score0 % 2
  /- pick minimum scaling [0..16] -/
  let score := if ext_area > area then score * 32 + 16 * area / ext_area
               else score * 32 + 16 * ext_area / area
  /- pick smallest leftover area [0..16] -/
  let score := score * 32 + (16 * ext_area + mode_area / 2) / mode_area
  /- adjust mode refresh rate -/
  let mode_refresh := if mode_refresh0 % 6 = 5 then mode_refresh0 + 1
                      else mode_refresh0
  /- prefer same or higher frame rate -/
  let score := score * 2 + (if mode_refresh ≥ refresh then 1 else 0)
  /- pick closest frame rate -/
  let score := if mode_refresh > refresh
               then score * 256 + 240 * refresh / mode_refresh
               else score * 256 + 240 * mode_refresh / refresh
  score

/-- One `dsscomp_videomode` entry of the HDMI mode database. -/
structure VideoMode where
  xres : Nat
  yres : Nat
  refresh : Nat
  pixclock : Nat
  vmode : Nat
  flag : Nat
  deriving Repr, DecidableEq

def FB_VMODE_INTERLACED : Nat := 1

def FB_FLAG_RATIO_4_3 : Nat := 64

def FB_FLAG_RATIO_16_9 : Nat := 128

/-- Sink information from the display query used by mode scoring. -/
structure HdmiQueryInfo where
  width_in_mm : Nat
  height_in_mm : Nat
  digitChannel : Bool
  limits : ScalerLimits
  deriving Repr, DecidableEq

/-- Score of candidate mode `i` in the loop of `set_best_hdmi_mode`
(hwc.c lines 630-683); 0 models the `continue`ed (skipped) candidates,
which the `best_score < score` update can likewise never select. `vmode / 2
≠ 0` is `vmode & ~FB_VMODE_INTERLACED`. -/
def hdmi_mode_score (xres yres xpy_n xpy_d : Nat) (info : HdmiQueryInfo)
    (avoidModeChange : Bool) (currentModeIx : Option Nat) (i : Nat)
    (m : VideoMode) : Nat :=
  let mode_xres := m.xres
  let mode_yres := if m.vmode &&& FB_VMODE_INTERLACED ≠ 0 then m.yres / 2
                   else m.yres
  let extWH : Nat × Nat :=
    if m.flag &&& FB_FLAG_RATIO_4_3 ≠ 0 then (4, 3)
    else if m.flag &&& FB_FLAG_RATIO_16_9 ≠ 0 then (16, 9)
    else (info.width_in_mm, info.height_in_mm)
  if mode_xres = 0 ∨ mode_yres = 0 then 0
  else
    let efb := get_max_dimensions xres yres xpy_n xpy_d mode_xres mode_yres
        extWH.1 extWH.2
    /- we need to ensure that even TILER2D buffers can be scaled -/
    if m.pixclock = 0 ∨ m.vmode / 2 ≠ 0 ∨
       ¬can_scale xres yres efb.1 efb.2 true info.digitChannel info.limits
          (1000000000 / m.pixclock) then 0
    else
      /- prefer CEA modes -/
      let score : Nat :=
        if m.flag &&& (FB_FLAG_RATIO_4_3 + FB_FLAG_RATIO_16_9) ≠ 0 then 1
        else 0
      /- prefer the same mode as we use for mirroring to avoid mode change -/
      let score := score * 2 +
        (if currentModeIx = some i ∧ avoidModeChange then 1 else 0)
      add_scaling_score score xres yres 60 efb.1 efb.2 mode_xres mode_yres
        (if m.refresh = 0 then 1 else m.refresh)

/-- Mode selection loop of `set_best_hdmi_mode`: running best index/score,
`best_score < score` so the earlier of two equal-scoring modes wins. -/
def set_best_hdmi_mode_choice (xres yres xpy_n xpy_d : Nat)
    (info : HdmiQueryInfo) (avoidModeChange : Bool)
    (currentModeIx : Option Nat) (modes : List VideoMode) : Option Nat :=
  (modes.enum.foldl (fun acc p =>
      let score := hdmi_mode_score xres yres xpy_n xpy_d info avoidModeChange
          currentModeIx p.1 p.2
      if acc.2 < score then (some p.1, score) else acc)
    ((none : Option Nat), 0)).1

/-- Scaler limits of the C7 scenario. -/
def c7_limits : ScalerLimits :=
  { fclk := 186000000, min_width := 2, max_downscale := 4,
    max_xdecim_2d := 4, max_ydecim_2d := 2, max_xdecim_1d := 16,
    max_ydecim_1d := 16, integer_scale_ratio_limit := 400 }

/-- HDMI sink of the C7 scenario. -/
def c7_info : HdmiQueryInfo :=
  { width_in_mm := 700, height_in_mm := 390, digitChannel := true,
    limits := c7_limits }

/-- Candidate CEA 16:9 mode 1280x720 at 60 Hz (74.25 MHz pixel clock). -/
def c7_mode720 : VideoMode :=
  { xres := 1280, yres := 720, refresh := 60, pixclock := 13468,
    vmode := 0, flag := FB_FLAG_RATIO_16_9 }

/-- Candidate CEA 16:9 mode 1920x1080 at 60 Hz (148.5 MHz pixel clock). -/
def c7_mode1080 : VideoMode :=
  { xres := 1920, yres := 1080, refresh := 60, pixclock := 6734,
    vmode := 0, flag := FB_FLAG_RATIO_16_9 }

/-- C7: for a desired 1280x720 image of matching aspect ratio, with CEA
candidates 1280x720@60 and 1920x1080@60 that both pass the scaler test,
the bit-packed scoring ranks the exact-resolution 1280x720 mode above the
1920x1080 mode of equal refresh rate and the selector picks it. -/
theorem set_best_hdmi_mode_picks_720 :
    can_scale 1280 720 1280 720 true true c7_limits (1000000000 / 13468) =
      true ∧
    can_scale 1280 720 1920 1080 true true c7_limits (1000000000 / 6734) =
      true ∧
    hdmi_mode_score 1280 720 1 1 c7_info true none 1 c7_mode1080 <
      hdmi_mode_score 1280 720 1 1 c7_info true none 0 c7_mode720 ∧
    set_best_hdmi_mode_choice 1280 720 1 1 c7_info true none
      [c7_mode720, c7_mode1080] = some 0 := by
  refine ⟨by decide, by decide, by decide, by decide⟩

/-! ## Composition planner: greedy overlay assignment
(`hwc_prepare_for_display`, hwc.c lines 1059-1212)

The per-frame, per-display overlay assignment loop. Layers are modelled by
the results of the per-layer predicates the loop consults (the predicates
themselves live in `layer.c`, outside this repository slice); the blitter
is modelled in its `BLT_POLICY_DISABLED` configuration, in which
`blit_all` is false and `use_sgx` is not reset after the loop. In the C
array `dsscomp->ovls`, slot 0 holds the framebuffer overlay whenever
`needs_fb` (= `use_sgx`) and the assigned layers follow; the model keeps
the layer slots in `layerOvls` and re-attaches the framebuffer slot in
`plan_ovls`, so C's array index `1 + fb_z` becomes index `fb_z` into
`layerOvls`. -/

/-- Predicate results for one `hwc_layer_1_t` consulted by the loop. -/
structure HwcLayer where
  valid : Bool
  nv12 : Bool
  rgb : Bool
  bgr : Bool
  protectedContent : Bool
  upscaledNv12 : Bool
  blended : Bool
  scaled : Bool
  mem1d : Nat
  deriving Repr, DecidableEq

/-- Loop-invariant context of `hwc_prepare_for_display` for one display:
budget fields of `composition_t`, policy flags, and the mirroring-derived
booleans of `can_dss_render_layer_for_display`. -/
structure PrepareCtx where
  avail_ovls : Nat
  ovl_ix_base : Nat
  use_sgx : Bool
  swap_rb : Bool
  force_sgx : Bool
  tiler1d_slot_size : Nat
  isPrimary : Bool
  primaryScaling : Bool
  tform : Bool
  on_tv : Bool
  flags_nv12_only : Bool
  flags_rgb_order : Bool
  deriving Repr, DecidableEq

/-- Embedding of `can_dss_render_layer_for_display` (hwc.c lines 812-836). -/
def can_dss_render_layer (ctx : PrepareCtx) (layer : HwcLayer) : Bool :=
  layer.valid &&
  /- cannot rotate non-NV12 layers on external display -/
  (!ctx.tform || layer.nv12) &&
  /- skip non-NV12 layers if also using SGX (if nv12_only flag is set) -/
  (!ctx.flags_nv12_only || (!ctx.use_sgx || layer.nv12)) &&
  /- make sure RGB ordering is consistent (if rgb_order flag is set) -/
  (!(if ctx.swap_rb then layer.rgb else layer.bgr) || !ctx.flags_rgb_order) &&
  /- TV can only render RGB -/
  !(ctx.on_tv && layer.bgr)

/-- One overlay slot of the plan under construction: its hardware index,
z-order, and the source-layer properties the invariants concern. -/
@[ext]
structure PlanOvl where
  ix : Nat
  zorder : Int
  scaled : Bool
  nv12 : Bool
  enabled : Bool
  isFb : Bool
  deriving Repr, DecidableEq

/-- Mutable state of the assignment loop (locals of
`hwc_prepare_for_display`): layer overlay slots, z counter, framebuffer
z-order (−1 when unassigned), next overlay index, memory accumulator,
`scaled_gfx`, and the per-layer `compositionType == HWC_OVERLAY` outcomes
in submission order. -/
structure PlanState where
  layerOvls : List PlanOvl
  z : Nat
  fbZ : Int
  ovl_ix : Nat
  mem_used : Nat
  scaled_gfx : Bool
  assigned : List Bool
  deriving Repr, DecidableEq

/-- Value of `dsscomp->num_ovls`: layer slots plus the framebuffer slot
reserved when `needs_fb` (= `use_sgx` with the blitter disabled). -/
def numOvls (ctx : PrepareCtx) (st : PlanState) : Nat :=
  st.layerOvls.length + (if ctx.use_sgx then 1 else 0)

/-- `dsscomp->ovls[n].cfg.zorder--` at layer position `n`. -/
def decZorderAt : List PlanOvl → Nat → List PlanOvl
  | [], _ => []
  | e :: r, 0 => { e with zorder := e.zorder - 1 } :: r
  | e :: r, n + 1 => e :: decZorderAt r n

/-- The `while (fb_z < z - 1) dsscomp->ovls[1 + fb_z++].cfg.zorder--;`
loop (hwc.c lines 1146-1148); the C `1 +` skips the framebuffer slot,
which `layerOvls` does not contain. -/
def bump_fb_z (ovls : List PlanOvl) (fbZ : Int) (z : Nat) :
    List PlanOvl × Int :=
  if fbZ < (z : Int) - 1 then
    bump_fb_z (decZorderAt ovls fbZ.toNat) (fbZ + 1) z
  else (ovls, fbZ)
termination_by ((z : Int) - 1 - fbZ).toNat
decreasing_by
  simp_wf
  omega

/-- The per-layer body of the assignment loop (hwc.c lines 1086-1151).
The first branch condition is the five-way conjunction at lines
1089-1097; on assignment the new overlay takes index `ovl_ix` and z-order
`z` (via `adjust_overlay_to_layer`/`setup_overlay`), and the primary
display's GFX-overlay bookkeeping of lines 1123-1134 may swap overlay
indices with slot 0; otherwise, under `use_sgx`, the layer is left to the
GPU and the framebuffer z-slot is opened or bumped (lines 1140-1150). -/
def hwc_prepare_layer_step (ctx : PrepareCtx) (st : PlanState)
    (layer : HwcLayer) : PlanState :=
  if numOvls ctx st < ctx.avail_ovls ∧
     can_dss_render_layer ctx layer = true ∧
     (ctx.force_sgx = false ∨ layer.protectedContent = true ∨
       layer.upscaledNv12 = true) ∧
     st.mem_used + layer.mem1d ≤ ctx.tiler1d_slot_size ∧
     ¬(layer.blended = true ∧ 0 ≤ st.fbZ) then
    /- render via DSS overlay -/
    let entry : PlanOvl :=
      { ix := st.ovl_ix, zorder := (st.z : Int), scaled := layer.scaled,
        nv12 := layer.nv12, enabled := true, isFb := false }
    if ctx.isPrimary = true then
      if numOvls ctx st = 0 ∧ ctx.primaryScaling = false then
        /- ensure GFX layer is never scaled -/
        { st with layerOvls := st.layerOvls ++ [entry],
                  scaled_gfx := layer.scaled || layer.nv12,
                  mem_used := st.mem_used + layer.mem1d,
                  z := st.z + 1, ovl_ix := st.ovl_ix + 1,
                  assigned := st.assigned ++ [true] }
      else if st.scaled_gfx = true ∧ layer.scaled = false ∧
          layer.nv12 = false then
        /- swap GFX layer with this one -/
        match st.layerOvls with
        | [] =>
          /- unreachable: scaled_gfx is only ever set with a slot-0 layer -/
          { st with layerOvls := [entry], scaled_gfx := false,
                    mem_used := st.mem_used + layer.mem1d,
                    z := st.z + 1, ovl_ix := st.ovl_ix + 1,
                    assigned := st.assigned ++ [true] }
        | e0 :: rest =>
          { st with layerOvls :=
              ({ e0 with ix := entry.ix } :: rest) ++ [{ entry with ix := e0.ix }],
                    scaled_gfx := false,
                    mem_used := st.mem_used + layer.mem1d,
                    z := st.z + 1, ovl_ix := st.ovl_ix + 1,
                    assigned := st.assigned ++ [true] }
      else
        { st with layerOvls := st.layerOvls ++ [entry],
                  mem_used := st.mem_used + layer.mem1d,
                  z := st.z + 1, ovl_ix := st.ovl_ix + 1,
                  assigned := st.assigned ++ [true] }
    else
      { st with layerOvls := st.layerOvls ++ [entry],
                mem_used := st.mem_used + layer.mem1d,
                z := st.z + 1, ovl_ix := st.ovl_ix + 1,
                assigned := st.assigned ++ [true] }
  else if ctx.use_sgx = true then
    if st.fbZ < 0 then
      /- NOTE: we are not handling transparent cutout for now -/
      { st with fbZ := (st.z : Int), z := st.z + 1,
                assigned := st.assigned ++ [false] }
    else
      /- move fb z-order up (by lowering dss layers) -/
      { st with layerOvls := (bump_fb_z st.layerOvls st.fbZ st.z).1,
                fbZ := (bump_fb_z st.layerOvls st.fbZ st.z).2,
                assigned := st.assigned ++ [false] }
  else
    { st with assigned := st.assigned ++ [false] }

/-- Post-loop GFX fix (hwc.c lines 1153-1155): if the GFX slot still holds
a scaled/NV12 layer it is moved to the next free VID pipe. -/
def hwc_prepare_gfx_fix (ctx : PrepareCtx) (st : PlanState) : PlanState :=
  if st.scaled_gfx = true ∧ ctx.isPrimary = true then
    { st with layerOvls :=
        match st.layerOvls with
        | [] => st.layerOvls
        | e0 :: rest => { e0 with ix := st.ovl_ix } :: rest }
  else st

/-- Post-loop framebuffer bookkeeping (hwc.c lines 1174-1183): with
`needs_fb`, a z-slot is assigned to the framebuffer if the loop did not
already open one. -/
def hwc_prepare_fb_finish (ctx : PrepareCtx) (st : PlanState) : PlanState :=
  if ctx.use_sgx = true then
    { st with fbZ := if st.fbZ < 0 then (st.z : Int) else st.fbZ,
              z := if st.fbZ < 0 then st.z + 1 else st.z }
  else st

/-- Post-loop bookkeeping: GFX fix followed by framebuffer finalisation. -/
def hwc_prepare_finish (ctx : PrepareCtx) (st : PlanState) : PlanState :=
  hwc_prepare_fb_finish ctx (hwc_prepare_gfx_fix ctx st)

/-- Whole assignment phase: initial state (`dsscomp->num_ovls = 0`, one
slot and one index reserved for the framebuffer when `needs_fb`, z and
`fb_z` cleared), the layer walk, and the post-loop bookkeeping. -/
def hwc_prepare_plan (ctx : PrepareCtx) (layers : List HwcLayer) :
    PlanState :=
  let st0 : PlanState :=
    { layerOvls := [], z := 0, fbZ := -1,
      ovl_ix := ctx.ovl_ix_base + (if ctx.use_sgx then 1 else 0),
      mem_used := 0, scaled_gfx := false, assigned := [] }
  hwc_prepare_finish ctx (layers.foldl (hwc_prepare_layer_step ctx) st0)

/-- The final overlay array of the plan, with the framebuffer overlay in
slot 0 (`setup_framebuffer`: index `ovl_ix_base`, z-order `fb_z`) when
`needs_fb`. -/
def plan_ovls (ctx : PrepareCtx) (st : PlanState) : List PlanOvl :=
  (if ctx.use_sgx then
     [{ ix := ctx.ovl_ix_base, zorder := st.fbZ, scaled := false,
        nv12 := false, enabled := true, isFb := true }]
   else []) ++ st.layerOvls

/-- The display-transform pass of hwc.c lines 1191-1195: each overlay is
put through `adjust_overlay_to_display`, which can only disable an overlay
that clips to nothing — indices and z-orders are not changed. The set of
disabled slots is abstracted as `d`. -/
def apply_display_adjust (d : Nat → Bool) (ovls : List PlanOvl) :
    List PlanOvl :=
  ovls.enum.map fun p => if d p.1 then { p.2 with enabled := false } else p.2

/-! ### Invariants of the assignment loop -/

/-- Expected z-order of the layer at layer-position `k` while the
framebuffer z-slot sits at `f` (−1 when unassigned): positions at or above
the framebuffer slot are shifted up by one. -/
def zExp (f : Int) (k : Nat) : Int :=
  if 0 ≤ f ∧ f ≤ (k : Int) then (k : Int) + 1 else (k : Int)

theorem decZorderAt_length (l : List PlanOvl) (n : Nat) :
    (decZorderAt l n).length = l.length := by
  induction l generalizing n with
  | nil => rfl
  | cons e r ih => cases n <;> simp [decZorderAt, ih]

theorem decZorderAt_get (l : List PlanOvl) (n k : Nat) (h : k < l.length)
    (h2 : k < (decZorderAt l n).length) :
    (decZorderAt l n).get ⟨k, h2⟩ =
      if k = n then
        { l.get ⟨k, h⟩ with zorder := (l.get ⟨k, h⟩).zorder - 1 }
      else l.get ⟨k, h⟩ := by
  induction l generalizing n k with
  | nil => simp at h
  | cons e r ih =>
    cases n with
    | zero =>
      cases k with
      | zero => simp [decZorderAt]
      | succ k => simp [decZorderAt]
    | succ n =>
      cases k with
      | zero => simp [decZorderAt]
      | succ k =>
        have hk : k < r.length := by simpa using h
        have hk2 : k < (decZorderAt r n).length := by
          simpa [decZorderAt_length] using h2
        simp only [decZorderAt, List.get_cons_succ]
        rw [ih n k hk hk2]
        simp [Nat.succ_inj]

theorem bump_fb_z_spec :
    ∀ (n : Nat) (les : List PlanOvl) (f : Int) (z : Nat),
      ((z : Int) - 1 - f).toNat = n →
      0 ≤ f → f < (z : Int) → z = les.length + 1 →
      (∀ k (h : k < les.length), (les.get ⟨k, h⟩).zorder = zExp f k) →
      ∃ les', bump_fb_z les f z = (les', (z : Int) - 1) ∧
        les'.length = les.length ∧
        ∀ k (h : k < les.length) (h2 : k < les'.length),
          les'.get ⟨k, h2⟩ = { les.get ⟨k, h⟩ with zorder := (k : Int) } := by
  intro n
  induction n with
  | zero =>
    intro les f z hn h0 hz hlen hpos
    have hf : ¬(f < (z : Int) - 1) := by omega
    refine ⟨les, by rw [bump_fb_z, if_neg hf]; congr 1; omega, rfl, ?_⟩
    intro k h h2
    have hzk : (les.get ⟨k, h⟩).zorder = (k : Int) := by
      rw [hpos k h]
      unfold zExp
      rw [if_neg (by omega)]
    have hzk2 : les[k].zorder = (k : Int) := by
      simpa [List.get_eq_getElem] using hzk
    ext <;> simp [List.get_eq_getElem, hzk2]
  | succ n ih =>
    intro les f z hn h0 hz hlen hpos
    have hf : f < (z : Int) - 1 := by omega
    rw [bump_fb_z, if_pos hf]
    have hflt : f.toNat < les.length := by omega
    have hpos2 : ∀ k (h : k < (decZorderAt les f.toNat).length),
        ((decZorderAt les f.toNat).get ⟨k, h⟩).zorder = zExp (f + 1) k := by
      intro k h
      have hk : k < les.length := by
        simpa [decZorderAt_length] using h
      rw [decZorderAt_get les f.toNat k hk h]
      by_cases hkf : k = f.toNat
      · rw [if_pos hkf]
        have hzz := hpos k hk
        unfold zExp at hzz ⊢
        rw [if_pos ⟨h0, by omega⟩] at hzz
        rw [if_neg (by omega)]
        show (les.get ⟨k, hk⟩).zorder - 1 = (k : Int)
        omega
      · rw [if_neg hkf]
        have := hpos k hk
        unfold zExp at this ⊢
        by_cases hle : f ≤ (k : Int)
        · rw [if_pos ⟨h0, hle⟩] at this
          rw [if_pos (by constructor <;> omega), this]
        · rw [if_neg (by omega)] at this
          rw [if_neg (by omega), this]
    obtain ⟨les', hbump, hlen', hget⟩ :=
      ih (decZorderAt les f.toNat) (f + 1) z (by omega) (by omega) (by omega)
        (by simp [decZorderAt_length]; omega) hpos2
    refine ⟨les', hbump, by simp [hlen', decZorderAt_length], ?_⟩
    intro k h h2
    have hk2 : k < (decZorderAt les f.toNat).length := by
      simp [decZorderAt_length]; omega
    rw [hget k hk2 h2, decZorderAt_get les f.toNat k h hk2]
    by_cases hkf : k = f.toNat
    · simp [hkf]
    · simp [hkf]

theorem list_get_append_left {α : Type} :
    ∀ (l1 l2 : List α) (k : Nat) (h1 : k < l1.length)
      (h : k < (l1 ++ l2).length),
      (l1 ++ l2).get ⟨k, h⟩ = l1.get ⟨k, h1⟩ := by
  intro l1
  induction l1 with
  | nil => intro l2 k h1 h; simp at h1
  | cons a l ih =>
    intro l2 k h1 h
    cases k with
    | zero => rfl
    | succ k =>
      simp only [List.cons_append, List.get_cons_succ]
      exact ih l2 k (by simpa using h1) _

theorem list_get_append_last {α : Type} :
    ∀ (l1 : List α) (e : α) (h : l1.length < (l1 ++ [e]).length),
      (l1 ++ [e]).get ⟨l1.length, h⟩ = e := by
  intro l1
  induction l1 with
  | nil => intro e h; rfl
  | cons a l ih =>
    intro e h
    simp only [List.cons_append, List.length_cons, List.get_cons_succ]
    exact ih e _

theorem count_true_false_eq_length :
    ∀ l : List Bool, l.count true + l.count false = l.length := by
  intro l
  induction l with
  | nil => rfl
  | cons b l ih => cases b <;> simp [List.count_cons] <;> omega

/-- Loop invariant of the overlay-assignment walk. `zpos` pins each layer
slot's z-order as a function of its position and the framebuffer z-slot;
`ixperm` states that the hardware indices are a permutation of the
contiguous index range handed out so far; `gfx` tracks the primary
display's never-scale-the-GFX-overlay bookkeeping. -/
structure PlanInv (ctx : PrepareCtx) (st : PlanState) : Prop where
  z_eq : st.z = st.layerOvls.length + (if 0 ≤ st.fbZ then 1 else 0)
  fb_lb : -1 ≤ st.fbZ
  fb_lt : st.fbZ < (st.z : Int)
  fb_sgx : 0 ≤ st.fbZ → ctx.use_sgx = true
  ovl_ix_eq : st.ovl_ix =
    ctx.ovl_ix_base + (if ctx.use_sgx then 1 else 0) + st.layerOvls.length
  len_le : numOvls ctx st ≤ ctx.avail_ovls ∨ st.layerOvls.length = 0
  not_fb : ∀ e ∈ st.layerOvls, e.isFb = false
  zpos : ∀ k (h : k < st.layerOvls.length),
    (st.layerOvls.get ⟨k, h⟩).zorder = zExp st.fbZ k
  ixperm : List.Perm (st.layerOvls.map (fun e => e.ix))
    ((List.range st.layerOvls.length).map
      (fun k => ctx.ovl_ix_base + (if ctx.use_sgx then 1 else 0) + k))
  cnt : st.assigned.count true = st.layerOvls.length
  sg : st.scaled_gfx = true → ctx.use_sgx = false ∧ st.layerOvls ≠ []
  gfx : ctx.isPrimary = true →
    ctx.ovl_ix_base =
      (if ctx.primaryScaling then OMAP_DSS_VIDEO1 else OMAP_DSS_GFX) →
    ((st.scaled_gfx = true → ctx.primaryScaling = false ∧
        ∃ e0 rest, st.layerOvls = e0 :: rest ∧ e0.ix = 0) ∧
     (∀ k (h : k < st.layerOvls.length), (st.layerOvls.get ⟨k, h⟩).ix = 0 →
        ((st.layerOvls.get ⟨k, h⟩).scaled = false ∧
         (st.layerOvls.get ⟨k, h⟩).nv12 = false) ∨
        (st.scaled_gfx = true ∧ k = 0)))

/-- The invariant holds at loop entry. -/
theorem planInv_init (ctx : PrepareCtx) :
    PlanInv ctx
      { layerOvls := [], z := 0, fbZ := -1,
        ovl_ix := ctx.ovl_ix_base + (if ctx.use_sgx then 1 else 0),
        mem_used := 0, scaled_gfx := false, assigned := [] } := by
  refine ⟨?_, ?_, ?_, ?_, ?_, ?_, ?_, ?_, ?_, ?_, ?_, ?_⟩ <;>
    simp [numOvls]

/-- Preservation of the invariant by any of the four DSS-assignment
branches: the new slot list `lOvls`, one longer, must satisfy the
positional z-order law, the index-permutation law and the GFX bookkeeping;
everything else is common to the branches. -/
theorem planInv_assign (ctx : PrepareCtx) (st : PlanState)
    (lOvls : List PlanOvl) (sg' : Bool) (mem : Nat)
    (inv : PlanInv ctx st)
    (hcap : numOvls ctx st < ctx.avail_ovls)
    (hlen : lOvls.length = st.layerOvls.length + 1)
    (hz : ∀ k (h : k < lOvls.length), (lOvls.get ⟨k, h⟩).zorder = zExp st.fbZ k)
    (hperm : List.Perm (lOvls.map (fun e => e.ix))
      ((List.range lOvls.length).map
        (fun k => ctx.ovl_ix_base + (if ctx.use_sgx then 1 else 0) + k)))
    (hnfb : ∀ e ∈ lOvls, e.isFb = false)
    (hsg : sg' = true → ctx.use_sgx = false)
    (hgfx : ctx.isPrimary = true →
      ctx.ovl_ix_base =
        (if ctx.primaryScaling then OMAP_DSS_VIDEO1 else OMAP_DSS_GFX) →
      ((sg' = true → ctx.primaryScaling = false ∧
          ∃ e0 rest, lOvls = e0 :: rest ∧ e0.ix = 0) ∧
       (∀ k (h : k < lOvls.length), (lOvls.get ⟨k, h⟩).ix = 0 →
          ((lOvls.get ⟨k, h⟩).scaled = false ∧
           (lOvls.get ⟨k, h⟩).nv12 = false) ∨
          (sg' = true ∧ k = 0)))) :
    PlanInv ctx
      { st with layerOvls := lOvls, scaled_gfx := sg', mem_used := mem,
                z := st.z + 1, ovl_ix := st.ovl_ix + 1,
                assigned := st.assigned ++ [true] } := by
  obtain ⟨z_eq, fb_lb, fb_lt, fb_sgx, ovl_ix_eq, len_le, not_fb, zpos,
    ixperm, cnt, sg, gfx⟩ := inv
  refine ⟨?_, ?_, ?_, ?_, ?_, ?_, ?_, ?_, ?_, ?_, ?_, ?_⟩ <;> dsimp only
  · omega
  · exact fb_lb
  · omega
  · exact fb_sgx
  · omega
  · left
    unfold numOvls at hcap ⊢
    dsimp only
    omega
  · exact hnfb
  · exact hz
  · exact hperm
  · simp [cnt, hlen]
  · intro h
    refine ⟨hsg h, fun hnil => ?_⟩
    rw [hnil] at hlen
    simp at hlen
  · exact hgfx

/-- The fresh slot appended at layer-position `m` receives z-order `z`. -/
theorem zExp_at_append (f : Int) (m z : Nat) (h2 : f < (z : Int))
    (h3 : z = m + (if 0 ≤ f then 1 else 0)) : zExp f m = (z : Int) := by
  by_cases h0 : 0 ≤ f
  · rw [if_pos h0] at h3
    unfold zExp
    rw [if_pos ⟨h0, by omega⟩]
    omega
  · rw [if_neg h0] at h3
    unfold zExp
    rw [if_neg (by omega)]
    omega

theorem hz_append (les : List PlanOvl) (e : PlanOvl) (f : Int)
    (hz : ∀ k (h : k < les.length), (les.get ⟨k, h⟩).zorder = zExp f k)
    (he : e.zorder = zExp f les.length) :
    ∀ k (h : k < (les ++ [e]).length),
      ((les ++ [e]).get ⟨k, h⟩).zorder = zExp f k := by
  intro k h
  by_cases hk : k < les.length
  · rw [list_get_append_left les [e] k hk h]
    exact hz k hk
  · have hke : k = les.length := by
      simp only [List.length_append, List.length_singleton] at h
      omega
    subst hke
    rw [list_get_append_last les e h]
    exact he

theorem hperm_append (les : List PlanOvl) (e : PlanOvl) (b : Nat)
    (hp : List.Perm (les.map (fun x => x.ix))
      ((List.range les.length).map (fun k => b + k)))
    (he : e.ix = b + les.length) :
    List.Perm ((les ++ [e]).map (fun x => x.ix))
      ((List.range (les ++ [e]).length).map (fun k => b + k)) := by
  simp only [List.map_append, List.length_append, List.length_singleton,
    List.map_singleton, List.range_succ]
  exact List.Perm.append hp (by rw [he])

theorem hperm_swap (e0 : PlanOvl) (rest : List PlanOvl) (eNew : PlanOvl)
    (v b : Nat)
    (hp : List.Perm ((e0 :: rest).map (fun x => x.ix))
      ((List.range (e0 :: rest).length).map (fun k => b + k)))
    (hnew : eNew.ix = e0.ix) (hv : v = b + (e0 :: rest).length) :
    List.Perm ((({ e0 with ix := v } :: rest) ++ [eNew]).map (fun x => x.ix))
      ((List.range (({ e0 with ix := v } :: rest) ++ [eNew]).length).map
        (fun k => b + k)) := by
  simp only [List.map_append, List.map_cons, List.map_singleton, hnew,
    List.length_append, List.length_cons, List.length_singleton]
  simp only [List.map_cons, List.length_cons] at hp hv
  have h1 : List.Perm ((v :: rest.map (fun x => x.ix)) ++ [e0.ix])
      (v :: (e0.ix :: rest.map (fun x => x.ix))) := by
    simp only [List.cons_append]
    exact List.Perm.cons v (List.perm_append_singleton _ _)
  have h2 : List.Perm (v :: (e0.ix :: rest.map (fun x => x.ix)))
      (v :: (List.range (rest.length + 1)).map (fun k => b + k)) :=
    List.Perm.cons v hp
  have h3 : List.Perm
      ((List.range (rest.length + 1)).map (fun k => b + k) ++ [b + (rest.length + 1)])
      (v :: (List.range (rest.length + 1)).map (fun k => b + k)) := by
    rw [← hv]
    exact List.perm_append_singleton _ _
  have h4 := (h1.trans h2).trans h3.symm
  simpa [List.range_succ] using h4

/-- Preservation by the framebuffer-slot-opening branch (`fb_z = z; z++`). -/
theorem planInv_fb_open (ctx : PrepareCtx) (st : PlanState)
    (inv : PlanInv ctx st) (hsgx : ctx.use_sgx = true) (hfb : st.fbZ < 0) :
    PlanInv ctx { st with fbZ := (st.z : Int), z := st.z + 1,
                          assigned := st.assigned ++ [false] } := by
  obtain ⟨z_eq, fb_lb, fb_lt, fb_sgx, ovl_ix_eq, len_le, not_fb, zpos,
    ixperm, cnt, sg, gfx⟩ := inv
  have hfz : st.fbZ = -1 := by omega
  have hzm : st.z = st.layerOvls.length := by
    rw [z_eq, hfz]
    simp
  have hznn : (0 : Int) ≤ (st.z : Int) := Int.natCast_nonneg _
  refine ⟨?_, ?_, ?_, ?_, ?_, ?_, ?_, ?_, ?_, ?_, ?_, ?_⟩ <;> dsimp only
  · rw [if_pos hznn]
    omega
  · omega
  · omega
  · intro _; exact hsgx
  · exact ovl_ix_eq
  · unfold numOvls at len_le ⊢
    dsimp only
    omega
  · exact not_fb
  · intro k h
    rw [zpos k h, hfz]
    unfold zExp
    rw [if_neg (by omega), if_neg (by omega)]
  · exact ixperm
  · simp [cnt]
  · exact sg
  · exact gfx

/-- Preservation by the framebuffer z-order bump branch. -/
theorem planInv_fb_bump (ctx : PrepareCtx) (st : PlanState)
    (inv : PlanInv ctx st) (hsgx : ctx.use_sgx = true)
    (hfb : ¬st.fbZ < 0) :
    PlanInv ctx { st with layerOvls := (bump_fb_z st.layerOvls st.fbZ st.z).1,
                          fbZ := (bump_fb_z st.layerOvls st.fbZ st.z).2,
                          assigned := st.assigned ++ [false] } := by
  obtain ⟨z_eq, fb_lb, fb_lt, fb_sgx, ovl_ix_eq, len_le, not_fb, zpos,
    ixperm, cnt, sg, gfx⟩ := inv
  have h0 : 0 ≤ st.fbZ := by omega
  have hzlen : st.z = st.layerOvls.length + 1 := by
    rw [z_eq, if_pos h0]
  obtain ⟨les', hbump, hlen', hget⟩ :=
    bump_fb_z_spec ((st.z : Int) - 1 - st.fbZ).toNat st.layerOvls st.fbZ st.z
      rfl h0 fb_lt hzlen zpos
  rw [hbump]
  have hz1 : (1 : Int) ≤ (st.z : Int) := by omega
  refine ⟨?_, ?_, ?_, ?_, ?_, ?_, ?_, ?_, ?_, ?_, ?_, ?_⟩ <;> dsimp only
  · rw [if_pos (by omega : (0 : Int) ≤ (st.z : Int) - 1)]
    omega
  · omega
  · omega
  · intro _; exact hsgx
  · rw [hlen']
    exact ovl_ix_eq
  · unfold numOvls at len_le ⊢
    dsimp only
    omega
  · intro e he
    obtain ⟨⟨k, hk⟩, rfl⟩ := List.mem_iff_get.mp he
    have hk0 : k < st.layerOvls.length := by omega
    rw [hget k hk0 hk]
    exact not_fb (st.layerOvls.get ⟨k, hk0⟩) (List.get_mem st.layerOvls k hk0)
  · intro k h
    have hk0 : k < st.layerOvls.length := by omega
    rw [hget k hk0 h]
    unfold zExp
    rw [if_neg (by omega)]
  · have hmap : les'.map (fun e => e.ix) =
        st.layerOvls.map (fun e => e.ix) := by
      apply List.ext_get (by simp [hlen'])
      intro k h1 h2
      simp only [List.get_map]
      have hk0 : k < st.layerOvls.length := by
        simpa using h2
      have hk1 : k < les'.length := by simpa using h1
      rw [hget k hk0 hk1]
    rw [hmap, hlen']
    exact ixperm
  · simp [cnt, hlen']
  · intro h
    exact absurd hsgx (by simp [(sg h).1])
  · intro hp hb
    obtain ⟨g1, g2⟩ := gfx hp hb
    constructor
    · intro h
      exact absurd hsgx (by simp [(sg h).1])
    · intro k h hix
      have hk0 : k < st.layerOvls.length := by omega
      rw [hget k hk0 h] at hix ⊢
      exact g2 k hk0 hix

/-- Preservation by the no-op branch (layer left to the GPU without a
framebuffer slot: `use_sgx` is false). -/
theorem planInv_skip (ctx : PrepareCtx) (st : PlanState)
    (inv : PlanInv ctx st) :
    PlanInv ctx { st with assigned := st.assigned ++ [false] } := by
  obtain ⟨z_eq, fb_lb, fb_lt, fb_sgx, ovl_ix_eq, len_le, not_fb, zpos,
    ixperm, cnt, sg, gfx⟩ := inv
  exact ⟨z_eq, fb_lb, fb_lt, fb_sgx, ovl_ix_eq, len_le, not_fb, zpos,
    ixperm, by simp [cnt], sg, gfx⟩

theorem get_congr {α : Type} (l1 l2 : List α) (h : l1 = l2) (k : Nat)
    (h1 : k < l1.length) (h2 : k < l2.length) :
    l1.get ⟨k, h1⟩ = l2.get ⟨k, h2⟩ := by
  subst h
  rfl

/-- The assignment-loop body preserves the invariant. -/
theorem planInv_step (ctx : PrepareCtx) (st : PlanState) (layer : HwcLayer)
    (inv : PlanInv ctx st) :
    PlanInv ctx (hwc_prepare_layer_step ctx st layer) := by
  unfold hwc_prepare_layer_step
  by_cases hc : numOvls ctx st < ctx.avail_ovls ∧
      can_dss_render_layer ctx layer = true ∧
      (ctx.force_sgx = false ∨ layer.protectedContent = true ∨
        layer.upscaledNv12 = true) ∧
      st.mem_used + layer.mem1d ≤ ctx.tiler1d_slot_size ∧
      ¬(layer.blended = true ∧ 0 ≤ st.fbZ)
  case neg =>
    rw [if_neg hc]
    by_cases hs : ctx.use_sgx = true
    · rw [if_pos hs]
      by_cases hf : st.fbZ < 0
      · rw [if_pos hf]
        exact planInv_fb_open ctx st inv hs hf
      · rw [if_neg hf]
        exact planInv_fb_bump ctx st inv hs hf
    · rw [if_neg hs]
      exact planInv_skip ctx st inv
  case pos =>
    rw [if_pos hc]
    dsimp only
    have hzlast : ((st.z : Nat) : Int) = zExp st.fbZ st.layerOvls.length :=
      (zExp_at_append st.fbZ st.layerOvls.length st.z inv.fb_lt inv.z_eq).symm
    by_cases hp : ctx.isPrimary = true
    case neg =>
      rw [if_neg hp]
      refine planInv_assign ctx st _ _ _ inv hc.1 (by simp) ?_ ?_ ?_ ?_ ?_
      · exact hz_append st.layerOvls _ st.fbZ inv.zpos (by exact hzlast)
      · exact hperm_append st.layerOvls _ _ inv.ixperm (by exact inv.ovl_ix_eq)
      · intro e he
        rcases List.mem_append.mp he with h | h
        · exact inv.not_fb e h
        · simp only [List.mem_singleton] at h
          rw [h]
      · intro h
        exact (inv.sg h).1
      · intro hp2
        exact absurd hp2 hp
    case pos =>
      rw [if_pos hp]
      by_cases h1 : numOvls ctx st = 0 ∧ ctx.primaryScaling = false
      case pos =>
        rw [if_pos h1]
        have hm0 : st.layerOvls.length = 0 := by
          have := h1.1
          unfold numOvls at this
          omega
        have hles : st.layerOvls = [] := List.length_eq_zero.mp hm0
        have hsgx : ctx.use_sgx = false := by
          cases hug : ctx.use_sgx
          · rfl
          · exfalso
            have := h1.1
            unfold numOvls at this
            rw [hug] at this
            simp at this
        refine planInv_assign ctx st _ _ _ inv hc.1 (by simp) ?_ ?_ ?_ ?_ ?_
        · exact hz_append st.layerOvls _ st.fbZ inv.zpos (by exact hzlast)
        · exact hperm_append st.layerOvls _ _ inv.ixperm (by exact inv.ovl_ix_eq)
        · intro e he
          rcases List.mem_append.mp he with h | h
          · exact inv.not_fb e h
          · simp only [List.mem_singleton] at h
            rw [h]
        · intro _
          exact hsgx
        · intro hp2 hb
          have hix0 : st.ovl_ix = 0 := by
            rw [inv.ovl_ix_eq, hb, h1.2, hsgx, hm0]
            simp [OMAP_DSS_GFX]
          constructor
          · intro hsg2
            refine ⟨h1.2, ?_⟩
            rw [hles]
            simp only [List.nil_append]
            exact ⟨_, [], rfl, by simp [hix0]⟩
          · intro k h hix
            have hk0 : k = 0 := by
              simp only [List.length_append, List.length_singleton] at h
              omega
            subst hk0
            have hgeq : (st.layerOvls ++
                [({ ix := st.ovl_ix, zorder := (st.z : Int),
                    scaled := layer.scaled, nv12 := layer.nv12,
                    enabled := true, isFb := false } : PlanOvl)]).get ⟨0, h⟩ =
                { ix := st.ovl_ix, zorder := (st.z : Int),
                  scaled := layer.scaled, nv12 := layer.nv12,
                  enabled := true, isFb := false } := by
              rw [get_congr _ ([] ++
                [({ ix := st.ovl_ix, zorder := (st.z : Int),
                    scaled := layer.scaled, nv12 := layer.nv12,
                    enabled := true, isFb := false } : PlanOvl)])
                (by rw [hles]) 0 h (by simp)]
              rfl
            rw [hgeq] at hix ⊢
            cases hsc : layer.scaled
            · cases hnv : layer.nv12
              · exact Or.inl ⟨rfl, rfl⟩
              · exact Or.inr ⟨rfl, rfl⟩
            · exact Or.inr ⟨rfl, rfl⟩
      case neg =>
        rw [if_neg h1]
        by_cases h2 : st.scaled_gfx = true ∧ layer.scaled = false ∧
            layer.nv12 = false
        case pos =>
          rw [if_pos h2]
          rcases hles : st.layerOvls with _ | ⟨e0, rest⟩
          · exact absurd ((inv.sg h2.1).2) (by simp [hles])
          · dsimp only
            have hsgx : ctx.use_sgx = false := (inv.sg h2.1).1
            have hlen0 : st.layerOvls.length = rest.length + 1 := by
              rw [hles]
              simp
            have zpos2 : ∀ k (h : k < (e0 :: rest).length),
                ((e0 :: rest).get ⟨k, h⟩).zorder = zExp st.fbZ k := by
              intro k h
              rw [get_congr (e0 :: rest) st.layerOvls hles.symm k h
                (by rw [hles]; exact h)]
              exact inv.zpos k _
            have hzmod : ∀ k
                (h : k < ({ e0 with ix := st.ovl_ix } :: rest).length),
                (({ e0 with ix := st.ovl_ix } :: rest).get ⟨k, h⟩).zorder =
                  zExp st.fbZ k := by
              intro k h
              cases k with
              | zero =>
                have := zpos2 0 (by simp)
                simpa using this
              | succ k =>
                have := zpos2 (k + 1) (by simpa using h)
                simpa using this
            refine planInv_assign ctx st _ _ _ inv hc.1
              (by rw [hles]; simp) ?_ ?_ ?_ ?_ ?_
            · refine hz_append _ _ st.fbZ hzmod ?_
              show ((st.z : Nat) : Int) = _
              rw [hzlast]
              simp only [List.length_cons]
              rw [hlen0]
            · have hperm0 := inv.ixperm
              rw [hles] at hperm0
              exact hperm_swap e0 rest
                ⟨e0.ix, (st.z : Int), layer.scaled, layer.nv12, true, false⟩
                st.ovl_ix (ctx.ovl_ix_base + (if ctx.use_sgx then 1 else 0))
                hperm0 rfl (by rw [inv.ovl_ix_eq, hles]; try simp)
            · intro e he
              rcases List.mem_append.mp he with h | h
              · rcases List.mem_cons.mp h with h | h
                · rw [h]
                  have he0 : e0.isFb = false :=
                    inv.not_fb e0 (by rw [hles]; simp)
                  simpa using he0
                · exact inv.not_fb e (by rw [hles]; simp [h])
              · simp only [List.mem_singleton] at h
                rw [h]
            · intro h
              exact absurd h (by decide)
            · intro hp2 hb
              constructor
              · intro h
                exact absurd h (by decide)
              · intro k h hix
                obtain ⟨g1, g2⟩ := inv.gfx hp2 hb
                obtain ⟨hscal, e0p, restp, hlesp, hix0⟩ := g1 h2.1
                have he0 : e0p = e0 := by
                  rw [hles] at hlesp
                  exact (List.cons_eq_cons.mp hlesp).1.symm
                have hix0e : e0.ix = 0 := he0 ▸ hix0
                by_cases hk : k < rest.length + 1
                · rw [list_get_append_left _ _ k (by simpa using hk) h]
                    at hix ⊢
                  cases k with
                  | zero =>
                    exfalso
                    have hv : st.ovl_ix = ctx.ovl_ix_base +
                        (if ctx.use_sgx then 1 else 0) + (rest.length + 1) := by
                      rw [inv.ovl_ix_eq, hlen0]
                    have hix2 : st.ovl_ix = 0 := hix
                    omega
                  | succ k =>
                    have hkr : k + 1 < st.layerOvls.length := by
                      rw [hles]
                      simpa using hk
                    have hgeq : (({ e0 with ix := st.ovl_ix } :: rest).get
                        ⟨k + 1, by simpa using hk⟩) =
                        st.layerOvls.get ⟨k + 1, hkr⟩ := by
                      have h9 : (({ e0 with ix := st.ovl_ix } :: rest).get
                          ⟨k + 1, by simpa using hk⟩) =
                          ((e0 :: rest).get ⟨k + 1, by simpa using hk⟩) := by
                        simp
                      rw [h9, get_congr (e0 :: rest) st.layerOvls hles.symm
                        (k + 1) (by simpa using hk) hkr]
                    rw [hgeq] at hix ⊢
                    rcases g2 (k + 1) hkr hix with hcc | hcc
                    · exact Or.inl hcc
                    · exact absurd hcc.2 (by omega)
                · have hke : k = rest.length + 1 := by
                    simp at h
                    omega
                  subst hke
                  have hlast : (({ e0 with ix := st.ovl_ix } :: rest) ++
                      [(⟨e0.ix, (st.z : Int), layer.scaled, layer.nv12, true,
                        false⟩ : PlanOvl)]).get ⟨rest.length + 1, h⟩ =
                      ⟨e0.ix, (st.z : Int), layer.scaled, layer.nv12, true,
                        false⟩ := by
                    have h8 := list_get_append_last
                      ({ e0 with ix := st.ovl_ix } :: rest)
                      (⟨e0.ix, (st.z : Int), layer.scaled, layer.nv12, true,
                        false⟩ : PlanOvl)
                      (by simp)
                    simpa using h8
                  rw [hlast]
                  exact Or.inl ⟨h2.2.1, h2.2.2⟩
        case neg =>
          rw [if_neg h2]
          refine planInv_assign ctx st _ _ _ inv hc.1 (by simp) ?_ ?_ ?_ ?_ ?_
          · exact hz_append st.layerOvls _ st.fbZ inv.zpos (by exact hzlast)
          · exact hperm_append st.layerOvls _ _ inv.ixperm
              (by exact inv.ovl_ix_eq)
          · intro e he
            rcases List.mem_append.mp he with h | h
            · exact inv.not_fb e h
            · simp only [List.mem_singleton] at h
              rw [h]
          · intro h
            exact (inv.sg h).1
          · intro hp2 hb
            obtain ⟨g1, g2⟩ := inv.gfx hp2 hb
            constructor
            · intro h
              obtain ⟨hscal, e0, rest, hles, hix0⟩ := g1 h
              exact ⟨hscal, e0, rest ++
                [⟨st.ovl_ix, (st.z : Int), layer.scaled, layer.nv12, true,
                  false⟩], by rw [hles]; simp, hix0⟩
            · intro k h hix
              by_cases hk : k < st.layerOvls.length
              · rw [list_get_append_left _ _ k hk h] at hix ⊢
                exact g2 k hk hix
              · exfalso
                have hke : k = st.layerOvls.length := by
                  simp only [List.length_append, List.length_singleton] at h
                  omega
                subst hke
                have hlast := list_get_append_last st.layerOvls
                  (⟨st.ovl_ix, (st.z : Int), layer.scaled, layer.nv12, true,
                    false⟩ : PlanOvl) h
                rw [hlast] at hix
                simp only at hix
                rw [inv.ovl_ix_eq] at hix
                cases hps : ctx.primaryScaling
                · exact h1 ⟨by unfold numOvls; omega, hps⟩
                · rw [hb, hps] at hix
                  simp [OMAP_DSS_VIDEO1] at hix

theorem planInv_foldl (ctx : PrepareCtx) (layers : List HwcLayer)
    (st : PlanState) (inv : PlanInv ctx st) :
    PlanInv ctx (layers.foldl (hwc_prepare_layer_step ctx) st) := by
  induction layers generalizing st with
  | nil => exact inv
  | cons l ls ih => exact ih _ (planInv_step ctx st l inv)

theorem step_assigned_length (ctx : PrepareCtx) (st : PlanState)
    (layer : HwcLayer) :
    (hwc_prepare_layer_step ctx st layer).assigned.length =
      st.assigned.length + 1 := by
  unfold hwc_prepare_layer_step
  split
  · dsimp only
    split
    · split
      · simp
      · split
        · split <;> simp
        · simp
    · simp
  · split
    · split <;> simp
    · simp

theorem foldl_assigned_length (ctx : PrepareCtx) (layers : List HwcLayer)
    (st : PlanState) :
    (layers.foldl (hwc_prepare_layer_step ctx) st).assigned.length =
      st.assigned.length + layers.length := by
  induction layers generalizing st with
  | nil => simp
  | cons l ls ih =>
    simp only [List.foldl_cons, List.length_cons]
    rw [ih]
    rw [step_assigned_length]
    omega

theorem gfx_fix_assigned (ctx : PrepareCtx) (st : PlanState) :
    (hwc_prepare_gfx_fix ctx st).assigned = st.assigned := by
  unfold hwc_prepare_gfx_fix
  split <;> rfl

theorem gfx_fix_length (ctx : PrepareCtx) (st : PlanState) :
    (hwc_prepare_gfx_fix ctx st).layerOvls.length = st.layerOvls.length := by
  unfold hwc_prepare_gfx_fix
  split
  · rcases st.layerOvls with _ | ⟨e0, rest⟩ <;> simp
  · rfl

theorem fb_finish_assigned (ctx : PrepareCtx) (st : PlanState) :
    (hwc_prepare_fb_finish ctx st).assigned = st.assigned := by
  unfold hwc_prepare_fb_finish
  split <;> rfl

theorem fb_finish_layerOvls (ctx : PrepareCtx) (st : PlanState) :
    (hwc_prepare_fb_finish ctx st).layerOvls = st.layerOvls := by
  unfold hwc_prepare_fb_finish
  split <;> rfl

theorem finish_assigned (ctx : PrepareCtx) (st : PlanState) :
    (hwc_prepare_finish ctx st).assigned = st.assigned := by
  unfold hwc_prepare_finish
  rw [fb_finish_assigned, gfx_fix_assigned]

theorem finish_length (ctx : PrepareCtx) (st : PlanState) :
    (hwc_prepare_finish ctx st).layerOvls.length = st.layerOvls.length := by
  unfold hwc_prepare_finish
  rw [fb_finish_layerOvls, gfx_fix_length]

theorem gfx_fix_not_fb (ctx : PrepareCtx) (st : PlanState)
    (h : ∀ e ∈ st.layerOvls, e.isFb = false) :
    ∀ e ∈ (hwc_prepare_gfx_fix ctx st).layerOvls, e.isFb = false := by
  unfold hwc_prepare_gfx_fix
  split
  · rcases hles : st.layerOvls with _ | ⟨e0, rest⟩
    · simpa [hles] using h
    · intro e he
      dsimp only at he
      rcases List.mem_cons.mp he with h2 | h2
      · rw [h2]
        have he0 : e0.isFb = false := h e0 (by rw [hles]; simp)
        simpa using he0
      · exact h e (by rw [hles]; simp [h2])
  · exact h

theorem finish_not_fb (ctx : PrepareCtx) (st : PlanState)
    (h : ∀ e ∈ st.layerOvls, e.isFb = false) :
    ∀ e ∈ (hwc_prepare_finish ctx st).layerOvls, e.isFb = false := by
  unfold hwc_prepare_finish
  rw [fb_finish_layerOvls]
  exact gfx_fix_not_fb ctx st h

/-- Inserting the framebuffer z-order `f` in front of the layer z-orders
yields exactly the contiguous range. -/
theorem cons_zexp_perm :
    ∀ (m : Nat) (f : Int), 0 ≤ f → f ≤ (m : Int) →
      List.Perm (f :: (List.range m).map (fun k => zExp f k))
        ((List.range (m + 1)).map (fun k => ((k : Nat) : Int))) := by
  intro m
  induction m with
  | zero =>
    intro f h0 h1
    have hf0 : f = 0 := by omega
    subst hf0
    simp [List.range_succ, zExp]
  | succ m ih =>
    intro f h0 h1
    by_cases hf : f ≤ (m : Int)
    · have hstep := ih f h0 hf
      have hr : (List.range (m + 1)).map (fun k => zExp f k) =
          (List.range m).map (fun k => zExp f k) ++ [zExp f m] := by
        rw [List.range_succ]
        simp
      have hz : zExp f m = ((m : Int) + 1) := by
        unfold zExp
        rw [if_pos ⟨h0, hf⟩]
      rw [hr, hz]
      have h2 : List.Perm (f :: ((List.range m).map (fun k => zExp f k) ++
          [(m : Int) + 1]))
          ((f :: (List.range m).map (fun k => zExp f k)) ++ [(m : Int) + 1]) := by
        simp
      refine h2.trans ?_
      have h3 := List.Perm.append hstep
        (List.Perm.refl [((m : Int) + 1)])
      refine h3.trans ?_
      rw [show (List.range (m + 1 + 1)).map (fun k => ((k : Nat) : Int)) =
          (List.range (m + 1)).map (fun k => ((k : Nat) : Int)) ++
            [((m + 1 : Nat) : Int)] by rw [List.range_succ]; simp]
      simp
    · have hf1 : f = (m : Int) + 1 := by omega
      have hr : (List.range (m + 1)).map (fun k => zExp f k) =
          (List.range (m + 1)).map (fun k => ((k : Nat) : Int)) := by
        apply List.map_congr_left
        intro a ha
        have : a < m + 1 := List.mem_range.mp ha
        unfold zExp
        rw [if_neg (by omega)]
      rw [hr, hf1]
      have := List.perm_append_singleton ((m : Int) + 1)
        ((List.range (m + 1)).map (fun k => ((k : Nat) : Int)))
      refine this.symm.trans ?_
      rw [show (List.range (m + 1 + 1)).map (fun k => ((k : Nat) : Int)) =
          (List.range (m + 1)).map (fun k => ((k : Nat) : Int)) ++
            [((m + 1 : Nat) : Int)] by rw [List.range_succ]; simp]
      simp

/-! ### Structure of the finished plan -/

/-- With the framebuffer z-slot unassigned the expected z-order is the
position itself. -/
theorem zExp_neg_one (k : Nat) : zExp (-1) k = (k : Int) := by
  unfold zExp
  rw [if_neg (by omega)]

/-- The positional z-order law as a map equation. -/
theorem map_zorder_of_zpos (st : PlanState)
    (hz : ∀ k (h : k < st.layerOvls.length),
      (st.layerOvls.get ⟨k, h⟩).zorder = zExp st.fbZ k) :
    st.layerOvls.map (fun e => e.zorder) =
      (List.range st.layerOvls.length).map (fun k => zExp st.fbZ k) := by
  apply List.ext_get
  · simp
  · intro k h1 h2
    simp only [List.get_map]
    rw [hz k (by simpa using h1)]
    congr 1
    simp [List.get_range]

/-- The GFX fix does not change any slot's z-order. -/
theorem gfx_fix_map_zorder (ctx : PrepareCtx) (st : PlanState) :
    (hwc_prepare_gfx_fix ctx st).layerOvls.map (fun e => e.zorder) =
      st.layerOvls.map (fun e => e.zorder) := by
  unfold hwc_prepare_gfx_fix
  split
  · rcases st.layerOvls with _ | ⟨e0, rest⟩ <;> simp
  · rfl

/-- The GFX fix does not change the z counter. -/
theorem gfx_fix_z (ctx : PrepareCtx) (st : PlanState) :
    (hwc_prepare_gfx_fix ctx st).z = st.z := by
  unfold hwc_prepare_gfx_fix
  split <;> rfl

/-- The GFX fix does not change the framebuffer z-slot. -/
theorem gfx_fix_fbZ (ctx : PrepareCtx) (st : PlanState) :
    (hwc_prepare_gfx_fix ctx st).fbZ = st.fbZ := by
  unfold hwc_prepare_gfx_fix
  split <;> rfl

/-- The GFX fix leaves the index list unchanged, or (when it fires)
replaces the head slot's index by the next free index. -/
theorem gfx_fix_map_ix_cases (ctx : PrepareCtx) (st : PlanState) :
    (hwc_prepare_gfx_fix ctx st).layerOvls.map (fun e => e.ix) =
      st.layerOvls.map (fun e => e.ix) ∨
    (st.scaled_gfx = true ∧ ctx.isPrimary = true ∧
      ∃ e0 rest, st.layerOvls = e0 :: rest ∧
        (hwc_prepare_gfx_fix ctx st).layerOvls.map (fun e => e.ix) =
          st.ovl_ix :: rest.map (fun e => e.ix)) := by
  unfold hwc_prepare_gfx_fix
  split
  · rename_i hcond
    obtain ⟨hsg, hp2⟩ := hcond
    rcases hles : st.layerOvls with _ | ⟨e0, rest⟩
    · left
      simp [hles]
    · right
      exact ⟨hsg, hp2, e0, rest, rfl, by simp⟩
  · left
    rfl

/-- The display-adjust pass keeps every slot's z-order. -/
theorem adjust_map_zorder (d : Nat → Bool) (l : List PlanOvl) :
    (apply_display_adjust d l).map (fun e => e.zorder) =
      l.map (fun e => e.zorder) := by
  unfold apply_display_adjust
  rw [List.map_map]
  have h : ((fun e => e.zorder) ∘
      fun p : Nat × PlanOvl =>
        if d p.1 then { p.2 with enabled := false } else p.2) =
      ((fun e => e.zorder) ∘ Prod.snd) := by
    funext p
    by_cases hd : d p.1 <;> simp [hd]
  rw [h, ← List.map_map, List.enum_map_snd]

/-- The display-adjust pass keeps every slot's hardware index. -/
theorem adjust_map_ix (d : Nat → Bool) (l : List PlanOvl) :
    (apply_display_adjust d l).map (fun e => e.ix) =
      l.map (fun e => e.ix) := by
  unfold apply_display_adjust
  rw [List.map_map]
  have h : ((fun e => e.ix) ∘
      fun p : Nat × PlanOvl =>
        if d p.1 then { p.2 with enabled := false } else p.2) =
      ((fun e => e.ix) ∘ Prod.snd) := by
    funext p
    by_cases hd : d p.1 <;> simp [hd]
  rw [h, ← List.map_map, List.enum_map_snd]

/-- The display-adjust pass does not change the number of slots. -/
theorem adjust_length (d : Nat → Bool) (l : List PlanOvl) :
    (apply_display_adjust d l).length = l.length := by
  unfold apply_display_adjust
  simp

/-- The z-orders of the finished plan (framebuffer slot included) are a
permutation of the contiguous range `0 .. z-1`. -/
theorem plan_zorder_perm (ctx : PrepareCtx) (st : PlanState)
    (inv : PlanInv ctx st) :
    List.Perm
      ((plan_ovls ctx (hwc_prepare_finish ctx st)).map (fun e => e.zorder))
      ((List.range (hwc_prepare_finish ctx st).z).map
        (fun k => ((k : Nat) : Int))) := by
  obtain ⟨z_eq, fb_lb, fb_lt, fb_sgx, ovl_ix_eq, len_le, not_fb, zpos,
    ixperm, cnt, sg, gfx⟩ := inv
  have hmap : st.layerOvls.map (fun e => e.zorder) =
      (List.range st.layerOvls.length).map (fun k => zExp st.fbZ k) :=
    map_zorder_of_zpos st zpos
  unfold hwc_prepare_finish plan_ovls hwc_prepare_fb_finish
  by_cases hu : ctx.use_sgx = true
  · rw [if_pos hu, if_pos hu]
    dsimp only
    rw [List.map_append, List.map_singleton]
    dsimp only
    rw [gfx_fix_fbZ, gfx_fix_z, gfx_fix_map_zorder, hmap]
    by_cases hneg : st.fbZ < 0
    · rw [if_pos hneg, if_pos hneg]
      have hfz : st.fbZ = -1 := by omega
      have hzn : st.z = st.layerOvls.length := by
        rw [z_eq, if_neg (by omega)]
        omega
      have hrw : (List.range st.layerOvls.length).map
          (fun k => zExp st.fbZ k) =
          (List.range st.layerOvls.length).map (fun k => ((k : Nat) : Int)) := by
        apply List.map_congr_left
        intro a _
        rw [hfz, zExp_neg_one]
      rw [hrw, hzn]
      rw [show List.range (st.layerOvls.length + 1) =
          List.range st.layerOvls.length ++ [st.layerOvls.length] from
        List.range_succ _]
      rw [List.map_append, List.map_singleton]
      exact (List.perm_append_singleton _ _).symm
    · rw [if_neg hneg, if_neg hneg]
      have h0 : (0 : Int) ≤ st.fbZ := by omega
      have hzn : st.z = st.layerOvls.length + 1 := by
        rw [z_eq, if_pos h0]
      have hle : st.fbZ ≤ (st.layerOvls.length : Int) := by
        rw [hzn] at fb_lt
        push_cast at fb_lt ⊢
        omega
      rw [hzn]
      exact cons_zexp_perm st.layerOvls.length st.fbZ h0 hle
  · rw [if_neg hu, if_neg hu]
    rw [List.nil_append, gfx_fix_z, gfx_fix_map_zorder, hmap]
    have hneg : st.fbZ < 0 := by
      by_contra hc
      exact absurd (fb_sgx (by omega)) hu
    have hfz : st.fbZ = -1 := by omega
    have hzn : st.z = st.layerOvls.length := by
      rw [z_eq, if_neg (by omega)]
      omega
    have hrw : (List.range st.layerOvls.length).map
        (fun k => zExp st.fbZ k) =
        (List.range st.layerOvls.length).map (fun k => ((k : Nat) : Int)) := by
      apply List.map_congr_left
      intro a _
      rw [hfz, zExp_neg_one]
    rw [hrw, hzn]

/-- The hardware indices of the finished plan (framebuffer slot included)
are pairwise distinct. -/
theorem plan_ix_nodup (ctx : PrepareCtx) (st : PlanState)
    (inv : PlanInv ctx st) :
    ((plan_ovls ctx (hwc_prepare_finish ctx st)).map
      (fun e => e.ix)).Nodup := by
  obtain ⟨z_eq, fb_lb, fb_lt, fb_sgx, ovl_ix_eq, len_le, not_fb, zpos,
    ixperm, cnt, sg, gfx⟩ := inv
  have hrnd : ((List.range st.layerOvls.length).map
      (fun k => ctx.ovl_ix_base + (if ctx.use_sgx then 1 else 0) + k)).Nodup :=
    (List.nodup_range _).map (fun a b h => by omega)
  have hnd : (st.layerOvls.map (fun e => e.ix)).Nodup :=
    ixperm.nodup_iff.mpr hrnd
  have hbound : ∀ x ∈ st.layerOvls.map (fun e => e.ix),
      x < ctx.ovl_ix_base + (if ctx.use_sgx then 1 else 0) +
        st.layerOvls.length := by
    intro x hx
    have hx2 := ixperm.mem_iff.mp hx
    simp only [List.mem_map, List.mem_range] at hx2
    obtain ⟨k, hk, hke⟩ := hx2
    omega
  have hlow : ∀ x ∈ st.layerOvls.map (fun e => e.ix),
      ctx.ovl_ix_base + (if ctx.use_sgx then 1 else 0) ≤ x := by
    intro x hx
    have hx2 := ixperm.mem_iff.mp hx
    simp only [List.mem_map, List.mem_range] at hx2
    obtain ⟨k, hk, hke⟩ := hx2
    omega
  unfold hwc_prepare_finish plan_ovls
  rw [fb_finish_layerOvls]
  rcases gfx_fix_map_ix_cases ctx st with hcase | hcase
  · by_cases hu : ctx.use_sgx = true
    · rw [if_pos hu]
      rw [List.map_append, List.map_singleton]
      dsimp only
      rw [List.singleton_append, hcase]
      refine List.nodup_cons.mpr ⟨?_, hnd⟩
      intro hmem
      have := hlow _ hmem
      rw [if_pos hu] at this
      omega
    · rw [if_neg hu, List.nil_append, hcase]
      exact hnd
  · obtain ⟨hsg, hp2, e0, rest, hles, hmapix⟩ := hcase
    obtain ⟨hsgx, -⟩ := sg hsg
    rw [if_neg (by rw [hsgx]; exact Bool.false_ne_true), List.nil_append,
      hmapix]
    have hov : st.ovl_ix =
        ctx.ovl_ix_base + st.layerOvls.length := by
      rw [ovl_ix_eq, hsgx]
      simp
    have holdmap : st.layerOvls.map (fun e => e.ix) =
        e0.ix :: rest.map (fun e => e.ix) := by
      rw [hles]
      simp
    refine List.nodup_cons.mpr ⟨?_, ?_⟩
    · intro hmem
      have hmem2 : st.ovl_ix ∈ st.layerOvls.map (fun e => e.ix) := by
        rw [holdmap]
        exact List.mem_cons_of_mem _ hmem
      have := hbound _ hmem2
      rw [hsgx] at this
      simp at this
      omega
    · have := hnd
      rw [holdmap] at this
      exact this.of_cons

/-- After the GFX fix, no layer slot left at hardware index 0 holds a
scaled or NV12 layer (primary display, correctly based index pool). -/
theorem gfx_fix_ix0_unscaled (ctx : PrepareCtx) (st : PlanState)
    (inv : PlanInv ctx st) (hp : ctx.isPrimary = true)
    (hb : ctx.ovl_ix_base =
      (if ctx.primaryScaling then OMAP_DSS_VIDEO1 else OMAP_DSS_GFX)) :
    ∀ e ∈ (hwc_prepare_gfx_fix ctx st).layerOvls,
      e.ix = 0 → e.scaled = false ∧ e.nv12 = false := by
  obtain ⟨z_eq, fb_lb, fb_lt, fb_sgx, ovl_ix_eq, len_le, not_fb, zpos,
    ixperm, cnt, sg, gfx⟩ := inv
  obtain ⟨g1, g2⟩ := gfx hp hb
  unfold hwc_prepare_gfx_fix
  split
  · rename_i hcond
    obtain ⟨hsg, -⟩ := hcond
    obtain ⟨hscal, e0, rest, hles, hix0⟩ := g1 hsg
    obtain ⟨hsgx, -⟩ := sg hsg
    have hov : st.ovl_ix = st.layerOvls.length := by
      rw [ovl_ix_eq, hb]
      simp [hscal, hsgx, OMAP_DSS_GFX]
    rw [hles]
    dsimp only
    intro e he hix
    rcases List.mem_cons.mp he with h2 | h2
    · rw [h2] at hix
      dsimp only at hix
      rw [hov, hles] at hix
      simp at hix
    · obtain ⟨⟨k, hk⟩, hke⟩ := List.mem_iff_get.mp h2
      have hk1 : k + 1 < st.layerOvls.length := by
        rw [hles]
        simpa using hk
      have hgete : st.layerOvls.get ⟨k + 1, hk1⟩ = e := by
        rw [get_congr st.layerOvls (e0 :: rest) hles (k + 1) hk1
          (by simpa using hk)]
        exact hke
      rcases g2 (k + 1) hk1 (by rw [hgete]; exact hix) with h3 | h3
      · rw [hgete] at h3
        exact h3
      · omega
  · rename_i hcond
    have hsgf : st.scaled_gfx = false := by
      cases hsg2 : st.scaled_gfx
      · rfl
      · exact absurd ⟨hsg2, hp⟩ hcond
    intro e he hix
    obtain ⟨⟨k, hk⟩, hke⟩ := List.mem_iff_get.mp he
    rcases g2 k hk (by rw [hke]; exact hix) with h3 | h3
    · rw [hke] at h3
      exact h3
    · rw [hsgf] at h3
      exact absurd h3.1 (by decide)

/-- Filtering the framebuffer slot out of the finished plan leaves
exactly the layer slots. -/
theorem plan_filter_layers (ctx : PrepareCtx) (stx : PlanState)
    (hnf : ∀ e ∈ stx.layerOvls, e.isFb = false) :
    (plan_ovls ctx stx).filter (fun e => !e.isFb) = stx.layerOvls := by
  unfold plan_ovls
  rw [List.filter_append]
  have h2 : stx.layerOvls.filter (fun e => !e.isFb) = stx.layerOvls :=
    List.filter_eq_self.mpr (fun e he => by rw [hnf e he]; rfl)
  rw [h2]
  by_cases hu : ctx.use_sgx = true
  · rw [if_pos hu]
    rfl
  · rw [if_neg hu]
    rfl

/-- C1: conservation law of the assignment loop. Every input layer is
classified (one `compositionType` verdict per layer), each layer is either
sent to a hardware overlay or left to the GPU, at most the per-display
overlay budget is spent on hardware overlays, and the non-framebuffer
slots of the produced plan are exactly the hardware-assigned layers. -/
theorem hwc_prepare_conservation (ctx : PrepareCtx)
    (layers : List HwcLayer) :
    (hwc_prepare_plan ctx layers).assigned.length = layers.length ∧
    (hwc_prepare_plan ctx layers).assigned.count true +
      (hwc_prepare_plan ctx layers).assigned.count false = layers.length ∧
    (hwc_prepare_plan ctx layers).assigned.count true ≤ ctx.avail_ovls ∧
    ((plan_ovls ctx (hwc_prepare_plan ctx layers)).filter
        (fun e => !e.isFb)).length =
      (hwc_prepare_plan ctx layers).assigned.count true := by
  have inv := planInv_foldl ctx layers _ (planInv_init ctx)
  have hplan : hwc_prepare_plan ctx layers =
      hwc_prepare_finish ctx
        (layers.foldl (hwc_prepare_layer_step ctx)
          { layerOvls := [], z := 0, fbZ := -1,
            ovl_ix := ctx.ovl_ix_base + (if ctx.use_sgx then 1 else 0),
            mem_used := 0, scaled_gfx := false, assigned := [] }) := rfl
  obtain ⟨z_eq, fb_lb, fb_lt, fb_sgx, ovl_ix_eq, len_le, not_fb, zpos,
    ixperm, cnt, sg, gfx⟩ := inv
  have hlen : (hwc_prepare_plan ctx layers).assigned.length =
      layers.length := by
    rw [hplan, finish_assigned, foldl_assigned_length]
    simp
  refine ⟨hlen, ?_, ?_, ?_⟩
  · rw [count_true_false_eq_length, hlen]
  · rw [hplan, finish_assigned, cnt]
    rcases len_le with h | h
    · unfold numOvls at h
      omega
    · rw [h]
      exact Nat.zero_le _
  · rw [hplan, finish_assigned,
      plan_filter_layers ctx _ (finish_not_fb ctx _ not_fb),
      finish_length, cnt]

/-- C2: in every composition plan produced for the primary display (whose
index pool starts at the GFX overlay, or at VID1 when the primary scales),
hardware overlay index 0 is never assigned a scaled or NV12 layer, given
that some unscaled non-NV12 candidate exists in the frame. -/
theorem gfx_overlay_never_scaled (ctx : PrepareCtx)
    (layers : List HwcLayer) (hp : ctx.isPrimary = true)
    (hb : ctx.ovl_ix_base =
      (if ctx.primaryScaling then OMAP_DSS_VIDEO1 else OMAP_DSS_GFX))
    (hcand : ∃ l, l ∈ layers ∧ l.scaled = false ∧ l.nv12 = false) :
    ∀ e ∈ plan_ovls ctx (hwc_prepare_plan ctx layers),
      e.ix = 0 → e.scaled = false ∧ e.nv12 = false := by
  have inv := planInv_foldl ctx layers _ (planInv_init ctx)
  intro e he hix
  unfold hwc_prepare_plan hwc_prepare_finish plan_ovls at he
  dsimp only at he
  rw [fb_finish_layerOvls] at he
  rcases List.mem_append.mp he with h1 | h1
  · by_cases hu : ctx.use_sgx = true
    · rw [if_pos hu] at h1
      simp only [List.mem_singleton] at h1
      rw [h1]
      exact ⟨rfl, rfl⟩
    · rw [if_neg hu] at h1
      simp at h1
  · exact gfx_fix_ix0_unscaled ctx _ inv hp hb e h1 hix

/-- Primary-display context of the C2 witness: four overlays, GPU
composition in use, non-scaling primary based at the GFX pipe. -/
def c2_ctx : PrepareCtx :=
  { avail_ovls := 4, ovl_ix_base := 0, use_sgx := false, swap_rb := false,
    force_sgx := false, tiler1d_slot_size := 1000, isPrimary := true,
    primaryScaling := false, tform := false, on_tv := false,
    flags_nv12_only := false, flags_rgb_order := false }

/-- A scaled RGB layer. -/
def c2_scaled_layer : HwcLayer :=
  { valid := true, nv12 := false, rgb := true, bgr := false,
    protectedContent := false, upscaledNv12 := false, blended := false,
    scaled := true, mem1d := 10 }

/-- An unscaled RGB layer. -/
def c2_plain_layer : HwcLayer :=
  { valid := true, nv12 := false, rgb := true, bgr := false,
    protectedContent := false, upscaledNv12 := false, blended := false,
    scaled := false, mem1d := 10 }

/-- Frame of the C2 witness: a scaled layer first (taking the GFX slot),
then an unscaled candidate. -/
def c2_layers : List HwcLayer := [c2_scaled_layer, c2_plain_layer]

/-- Witness for C2 at a concrete primary-display frame whose first layer
is scaled. -/
theorem gfx_overlay_never_scaled_witness :
    c2_ctx.isPrimary = true ∧
    (c2_ctx.ovl_ix_base =
      (if c2_ctx.primaryScaling then OMAP_DSS_VIDEO1 else OMAP_DSS_GFX)) ∧
    (∃ l, l ∈ c2_layers ∧ l.scaled = false ∧ l.nv12 = false) ∧
    (∀ e ∈ plan_ovls c2_ctx (hwc_prepare_plan c2_ctx c2_layers),
      e.ix = 0 → e.scaled = false ∧ e.nv12 = false) :=
  ⟨rfl, by decide,
   ⟨c2_plain_layer, List.mem_cons_of_mem _ (List.mem_cons_self _ _),
     rfl, rfl⟩,
   gfx_overlay_never_scaled c2_ctx c2_layers rfl (by decide)
     ⟨c2_plain_layer, List.mem_cons_of_mem _ (List.mem_cons_self _ _),
       rfl, rfl⟩⟩

/-- The plan as submitted for one display: the finished overlay array put
through the per-overlay display-transform pass. -/
def final_plan (ctx : PrepareCtx) (layers : List HwcLayer)
    (d : Nat → Bool) : List PlanOvl :=
  apply_display_adjust d (plan_ovls ctx (hwc_prepare_plan ctx layers))

/-- C3: in every submitted plan the enabled overlays' z-orders are
pairwise distinct, the hardware overlay indices are pairwise distinct,
the z-orders are a permutation of the contiguous range `0 .. z-1`, and
the number of overlays used equals the number of z-slots consumed. -/
theorem plan_zorders_distinct_contiguous (ctx : PrepareCtx)
    (layers : List HwcLayer) (d : Nat → Bool) :
    (((final_plan ctx layers d).filter (fun e => e.enabled)).map
        (fun e => e.zorder)).Nodup ∧
    ((final_plan ctx layers d).map (fun e => e.ix)).Nodup ∧
    List.Perm ((final_plan ctx layers d).map (fun e => e.zorder))
      ((List.range (hwc_prepare_plan ctx layers).z).map
        (fun k => ((k : Nat) : Int))) ∧
    (final_plan ctx layers d).length = (hwc_prepare_plan ctx layers).z := by
  have inv := planInv_foldl ctx layers _ (planInv_init ctx)
  have hzp := plan_zorder_perm ctx _ inv
  have hixnd := plan_ix_nodup ctx _ inv
  have hplan : hwc_prepare_plan ctx layers =
      hwc_prepare_finish ctx
        (layers.foldl (hwc_prepare_layer_step ctx)
          { layerOvls := [], z := 0, fbZ := -1,
            ovl_ix := ctx.ovl_ix_base + (if ctx.use_sgx then 1 else 0),
            mem_used := 0, scaled_gfx := false, assigned := [] }) := rfl
  have hperm : List.Perm ((final_plan ctx layers d).map (fun e => e.zorder))
      ((List.range (hwc_prepare_plan ctx layers).z).map
        (fun k => ((k : Nat) : Int))) := by
    unfold final_plan
    rw [adjust_map_zorder, hplan]
    exact hzp
  have hznd : ((final_plan ctx layers d).map (fun e => e.zorder)).Nodup := by
    refine hperm.nodup_iff.mpr ?_
    exact (List.nodup_range _).map (fun a b h => by exact_mod_cast h)
  refine ⟨?_, ?_, hperm, ?_⟩
  · have hsub : ((final_plan ctx layers d).filter
        (fun e => e.enabled)).Sublist (final_plan ctx layers d) :=
      List.filter_sublist _
    have hsub2 := hsub.map (fun e => e.zorder)
    exact hsub2.nodup hznd
  · unfold final_plan
    rw [adjust_map_ix, hplan]
    exact hixnd
  · have := hperm.length_eq
    simpa using this
